import Mathlib

/-!
# Print-job relay: delivery pipeline of `main.go`

A shallow embedding of the delivery pipeline of the printer service
(`handleMessage`, `tcpSender`, `processMessage`, `sendCallback`) together with
the parts of the Go standard library whose exact output the pipeline relies on
(`fmt.Fprintf` called without operands, `encoding/json` marshalling of a
`map[string]string`, `unicode/utf8`).

Go strings and byte slices are lists of bytes; a byte is a natural number below
256.  Durations are whole nanoseconds.
-/

namespace Printer

/-- Go `string` / `[]byte`: a sequence of bytes. -/
abbrev Bytes := List Nat

/-- The bytes of an ASCII literal. -/
def ascii (s : String) : Bytes := s.toList.map Char.toNat

/-! ## unicode/utf8 -/

/-- Constant `utf8.RuneError` (U+FFFD). -/
def RuneError : Nat := 0xFFFD

/-- The continuation bytes of `utf8.DecodeRuneInString`: `s0` is the lead byte of
a sequence of `sz` bytes, `lo` and `hi` bound its second byte (the entry of
`acceptRanges`), and `t` holds the bytes after the lead byte. -/
def decodeContinuation (s0 sz lo hi : Nat) (t : Bytes) : Nat × Nat :=
  match t with
  | [] => (RuneError, 1)
  | s1 :: t1 =>
    if s1 < lo ∨ hi < s1 then (RuneError, 1)
    else if sz ≤ 2 then ((s0 % 0x20) * 0x40 + s1 % 0x40, 2)
    else
      match t1 with
      | [] => (RuneError, 1)
      | s2 :: t2 =>
        if s2 < 0x80 ∨ 0xBF < s2 then (RuneError, 1)
        else if sz ≤ 3 then
          ((s0 % 0x10) * 0x1000 + (s1 % 0x40) * 0x40 + s2 % 0x40, 3)
        else
          match t2 with
          | [] => (RuneError, 1)
          | s3 :: _ =>
            if s3 < 0x80 ∨ 0xBF < s3 then (RuneError, 1)
            else
              ((s0 % 0x08) * 0x40000 + (s1 % 0x40) * 0x1000
                + (s2 % 0x40) * 0x40 + s3 % 0x40, 4)

/-- Function `utf8.DecodeRuneInString`: first rune of `s` and its width in bytes.
The tables `first` and `acceptRanges` of the Go source are unfolded into
comparisons on the lead byte. -/
def DecodeRuneInString (s : Bytes) : Nat × Nat :=
  match s with
  | [] => (RuneError, 0)
  | s0 :: t =>
    if s0 < 0x80 then (s0, 1)
    else if s0 < 0xC2 ∨ 0xF4 < s0 then (RuneError, 1)
    else if (s0 :: t).length < (if s0 < 0xE0 then 2 else if s0 < 0xF0 then 3 else 4) then
      (RuneError, 1)
    else
      decodeContinuation s0
        (if s0 < 0xE0 then 2 else if s0 < 0xF0 then 3 else 4)
        (if s0 = 0xE0 then 0xA0 else if s0 = 0xF0 then 0x90 else 0x80)
        (if s0 = 0xED then 0x9F else if s0 = 0xF4 then 0x8F else 0xBF)
        t

/-- Function `utf8.AppendRune` applied to an empty slice: the UTF-8 encoding of `r`. -/
def EncodeRune (r : Nat) : Bytes :=
  if r ≤ 0x7F then [r]
  else if r ≤ 0x7FF then [0xC0 + r / 0x40, 0x80 + r % 0x40]
  else
    let r := if 0x10FFFF < r ∨ (0xD800 ≤ r ∧ r ≤ 0xDFFF) then RuneError else r
    if r ≤ 0xFFFF then [0xE0 + r / 0x1000, 0x80 + (r / 0x40) % 0x40, 0x80 + r % 0x40]
    else [0xF0 + r / 0x40000, 0x80 + (r / 0x1000) % 0x40, 0x80 + (r / 0x40) % 0x40,
          0x80 + r % 0x40]

/-! ## fmt.Fprintf with an empty operand list

`processMessage` calls `fmt.Fprintf(conn, msg.Message)`: the message is the
format string and there are no operands.  The definitions below follow
`(*pp).doPrintf` of package `fmt` for `len(a) = 0`; in that case `argNum` stays
0, the fast path for simple verbs is never taken, and every verb other than
`%` is reported as missing or as having a bad index. -/

/-- Function `fmt.tooLarge`. -/
def tooLarge (x : Nat) : Bool := decide (x > 1000000)

/-- The digit loop of `fmt.parsenum`; the first argument bounds the number of
iterations by the number of bytes left before `end_`. -/
def parsenumLoop (s : Bytes) (end_ : Nat) : Nat → Nat → Nat → Bool → Nat × Bool × Nat
  | 0, newi, num, isnum => (num, isnum, newi)
  | fuel + 1, newi, num, isnum =>
    if newi < end_ ∧ 0x30 ≤ s.getD newi 0 ∧ s.getD newi 0 ≤ 0x39 then
      if tooLarge num then (0, false, end_)
      else parsenumLoop s end_ fuel (newi + 1) (num * 10 + (s.getD newi 0 - 0x30)) true
    else (num, isnum, newi)

/-- Function `fmt.parsenum`: `(num, isnum, newi)`. -/
def parsenum (s : Bytes) (start end_ : Nat) : Nat × Bool × Nat :=
  if start ≥ end_ then (0, false, end_)
  else parsenumLoop s end_ (end_ - start) start 0 false

/-- Function `fmt.parseArgNumber`: `(index, wid, ok)` for a format starting with `[`. -/
def parseArgNumber (format : Bytes) : Int × Nat × Bool :=
  if format.length < 3 then (0, 1, false)
  else if (format.drop 1).indexOf 0x5D < (format.drop 1).length then
    let i := (format.drop 1).indexOf 0x5D + 1
    let r := parsenum format 1 i
    if !r.2.1 ∨ r.2.2 ≠ i then (0, i + 1, false)
    else ((r.1 : Int) - 1, i + 1, true)
  else (0, 1, false)

/-- Method `(*pp).argNumber` with `numArgs = 0`: `(newi, found, goodArgNum)`;
the argument number itself never changes. -/
def argNumber (format : Bytes) (i : Nat) (goodArgNum : Bool) : Nat × Bool × Bool :=
  if format.length ≤ i ∨ format.getD i 0 ≠ 0x5B then (i, false, goodArgNum)
  else (i + (parseArgNumber (format.drop i)).2.1, (parseArgNumber (format.drop i)).2.2, false)

/-- Flag bytes recognised after a percent sign. -/
def isFlag (c : Nat) : Bool := c = 0x23 ∨ c = 0x30 ∨ c = 0x2B ∨ c = 0x2D ∨ c = 0x20

/-- The width part of a verb in `doPrintf` at index `i`: the new index,
`afterIndex`, `goodArgNum` and the bytes written.  A `*` finds no operand and
writes `%!(BADWIDTH)`. -/
def parseWidth (format : Bytes) (i : Nat) (afterIndex good : Bool) :
    Nat × Bool × Bool × Bytes :=
  if i < format.length ∧ format.getD i 0 = 0x2A then
    (i + 1, false, good, ascii "%!(BADWIDTH)")
  else
    let r := parsenum format i format.length
    (r.2.2, afterIndex, good && !(afterIndex && r.2.1), [])

/-- The precision part of a verb in `doPrintf` at index `i`, in the same form.  The
test is `i+1 < end && format[i] == '.'`: a dot that is the last byte of the
format is not a precision but the verb.  A `*` finds no operand and writes
`%!(BADPREC)`. -/
def parsePrecision (format : Bytes) (i : Nat) (afterIndex good : Bool) :
    Nat × Bool × Bool × Bytes :=
  if i + 1 < format.length ∧ format.getD i 0 = 0x2E then
    let a := argNumber format (i + 1) (good && !afterIndex)
    if a.1 < format.length ∧ format.getD a.1 0 = 0x2A then
      (a.1 + 1, false, a.2.2, ascii "%!(BADPREC)")
    else
      ((parsenum format a.1 format.length).2.2, a.2.1, a.2.2, [])
  else (i, afterIndex, good, [])

/-- The verb at index `i < len(format)` and its width in bytes. -/
def verbAt (format : Bytes) (i : Nat) : Nat × Nat :=
  if format.getD i 0 ≥ 0x80 then DecodeRuneInString (format.drop i) else (format.getD i 0, 1)

/-- What `doPrintf` writes for a verb when there is no operand. -/
def verbOutput (verb : Nat) (good : Bool) : Bytes :=
  if verb = 0x25 then [0x25]
  else if !good then ascii "%!" ++ EncodeRune verb ++ ascii "(BADINDEX)"
  else ascii "%!" ++ EncodeRune verb ++ ascii "(MISSING)"

/-- The part of a verb in `doPrintf` between the percent sign and the verb
character, starting at the index `i` after the percent sign: flags, argument
index, width, precision, argument index.  The result is the index of the verb
character, `goodArgNum`, and the bytes written on the way. -/
def verbStart (format : Bytes) (i : Nat) : Nat × Bool × Bytes :=
  let i3 := i + ((format.drop i).takeWhile isFlag).length
  let a := argNumber format i3 true
  let w := parseWidth format a.1 a.2.1 a.2.2
  let p := parsePrecision format w.1 w.2.1 w.2.2.1
  let b := if !p.2.1 then argNumber format p.1 p.2.2.1 else (p.1, p.2.1, p.2.2.1)
  (b.1, b.2.2, w.2.2.2 ++ p.2.2.2)

/-- One turn of the `formatLoop` of `doPrintf` starting at index `i < len(format)`:
the bytes appended to the buffer and the index of the next turn (`none` when the
loop is left). -/
def formatTurn (format : Bytes) (i : Nat) : Bytes × Option Nat :=
  let lit := (format.drop i).takeWhile (fun c => c != 0x25)
  let i1 := i + lit.length
  if i1 ≥ format.length then (lit, none)
  else
    let v := verbStart format (i1 + 1)
    if v.1 ≥ format.length then (lit ++ v.2.2 ++ ascii "%!(NOVERB)", none)
    else
      (lit ++ v.2.2 ++ verbOutput (verbAt format v.1).1 v.2.1,
        some (v.1 + (verbAt format v.1).2))

/-- The `formatLoop` of `doPrintf`, run for at most the given number of turns.
Every turn consumes at least one byte, so `len(format)` turns are enough
(`formatLoop_fuel`). -/
def formatLoop (format : Bytes) : Nat → Nat → Bytes → Bytes
  | 0, _, buf => buf
  | fuel + 1, i, buf =>
    if i ≥ format.length then buf
    else
      match formatTurn format i with
      | (out, none) => buf ++ out
      | (out, some j) => formatLoop format fuel j (buf ++ out)

/-- Function `fmt.Sprintf(format)` without operands: the bytes that
`fmt.Fprintf(w, format)` hands to `w.Write`. -/
def Sprintf (format : Bytes) : Bytes :=
  formatLoop format format.length 0 []

/-! ## strings, strconv -/

/-- Function `strings.ToLower`.  For an all-ASCII string the Go code maps the
bytes `A`..`Z` to lower case; otherwise it returns
`strings.Map(unicode.ToLower, s)`, which is taken as the given function
`mapToLower`. -/
def ToLower (mapToLower : Bytes → Bytes) (s : Bytes) : Bytes :=
  if s.all (fun c => decide (c < 0x80)) then
    s.map (fun c => if 0x41 ≤ c ∧ c ≤ 0x5A then c + 0x20 else c)
  else mapToLower s

/-- Function `strconv.FormatBool`. -/
def FormatBool (b : Bool) : Bytes := if b then ascii "true" else ascii "false"

/-! ## encoding/json: marshalling a `map[string]string` -/

/-- Table `hex` of package `encoding/json`. -/
def hex (n : Nat) : Nat := (ascii "0123456789abcdef").getD n 0

/-- Table `htmlSafeSet` of package `encoding/json`: the ASCII bytes written
without escaping when HTML escaping is on. -/
def htmlSafeSet (b : Nat) : Bool :=
  0x20 ≤ b ∧ b ≤ 0x7F ∧ b ≠ 0x22 ∧ b ≠ 0x26 ∧ b ≠ 0x3C ∧ b ≠ 0x3E ∧ b ≠ 0x5C

/-- The loop of `appendString` with `escapeHTML = true`: the escaped contents of a
JSON string, without the surrounding quotes, run for at most the given number of
turns.  Every turn consumes at least one byte, so `len(src)` turns are enough
(`appendStringLoop_fuel`). -/
def appendStringLoop : Nat → Bytes → Bytes
  | 0, _ => []
  | _ + 1, [] => []
  | fuel + 1, b :: rest =>
    if b < 0x80 then
      (if htmlSafeSet b then [b]
       else if b = 0x5C ∨ b = 0x22 then [0x5C, b]
       else if b = 0x08 then [0x5C, 0x62]
       else if b = 0x0C then [0x5C, 0x66]
       else if b = 0x0A then [0x5C, 0x6E]
       else if b = 0x0D then [0x5C, 0x72]
       else if b = 0x09 then [0x5C, 0x74]
       else [0x5C, 0x75, 0x30, 0x30, hex (b / 16), hex (b % 16)])
        ++ appendStringLoop fuel rest
    else
      let (c, size) := DecodeRuneInString ((b :: rest).take 4)
      if c = RuneError ∧ size = 1 then
        [0x5C, 0x75, 0x66, 0x66, 0x66, 0x64] ++ appendStringLoop fuel rest
      else if c = 0x2028 ∨ c = 0x2029 then
        [0x5C, 0x75, 0x32, 0x30, 0x32, hex (c % 16)]
          ++ appendStringLoop fuel ((b :: rest).drop size)
      else (b :: rest).take size ++ appendStringLoop fuel ((b :: rest).drop size)

/-- Function `appendString(nil, src, true)` of `encoding/json`: `src` as a JSON
string literal. -/
def appendString (src : Bytes) : Bytes :=
  [0x22] ++ appendStringLoop src.length src ++ [0x22]

/-- Function `strings.Compare(a, b) <= 0`: bytewise lexicographic order. -/
def bytesLE : Bytes → Bytes → Bool
  | [], _ => true
  | _ :: _, [] => false
  | a :: as, b :: bs => if a < b then true else if b < a then false else bytesLE as bs

/-- Insertion of one key/value pair into a list sorted by key. -/
def insertByKey (kv : Bytes × Bytes) : List (Bytes × Bytes) → List (Bytes × Bytes)
  | [] => [kv]
  | x :: xs => if bytesLE kv.1 x.1 then kv :: x :: xs else x :: insertByKey kv xs

/-- The key/value pairs of a map sorted by key, as `mapEncoder.encode` sorts them. -/
def sortByKey (m : List (Bytes × Bytes)) : List (Bytes × Bytes) :=
  m.foldr insertByKey []

/-- The members of a JSON object, comma separated. -/
def encodeMembers : List (Bytes × Bytes) → Bytes
  | [] => []
  | [kv] => appendString kv.1 ++ [0x3A] ++ appendString kv.2
  | kv :: rest => appendString kv.1 ++ [0x3A] ++ appendString kv.2 ++ [0x2C] ++ encodeMembers rest

/-- Function `json.Marshal` applied to a `map[string]string` given by its
key/value pairs (keys distinct): the members are written in key order. -/
def Marshal (m : List (Bytes × Bytes)) : Bytes :=
  [0x7B] ++ encodeMembers (sortByKey m) ++ [0x7D]

/-! ## Data model of `main.go` -/

/-- Durations in nanoseconds (`time.Millisecond`, `time.Second`, `time.Minute`). -/
def Millisecond : Nat := 1000000

def Second : Nat := 1000 * Millisecond

def Minute : Nat := 60 * Second

/-- Struct `Config`. -/
structure Config where
  MQTTHost : Bytes
  MQTTPort : Int
  MQTTUser : Bytes
  MQTTPass : Bytes
  Topic : Bytes
  TCPHost : Bytes
  TCPPort : Int
  USBHost : Bytes
  deriving DecidableEq, Repr

/-- Struct `PrintMessage`; `Timestamp` is the clock reading in nanoseconds. -/
structure PrintMessage where
  ID : Bytes
  Message : Bytes
  Callback : Bytes
  Cut : Bytes
  Timestamp : Int
  deriving DecidableEq, Repr

/-- Struct `CallbackData`. -/
structure CallbackData where
  URL : Bytes
  Data : Bytes
  deriving DecidableEq, Repr

/-- A buffered Go channel: its capacity and the elements waiting in it, oldest first. -/
structure Chan (α : Type) where
  cap : Nat
  buf : List α
  deriving DecidableEq, Repr

/-- Builtin `make(chan T, n)`. -/
def Chan.make {α : Type} (n : Nat) : Chan α := { cap := n, buf := [] }

/-- Channel send `c <- x`; `none` when the channel is full and the sender blocks. -/
def Chan.send {α : Type} (c : Chan α) (x : α) : Option (Chan α) :=
  if c.buf.length < c.cap then some { c with buf := c.buf ++ [x] } else none

/-- Channel receive `<-c`; `none` when nothing is waiting and the receiver blocks. -/
def Chan.recv {α : Type} (c : Chan α) : Option (α × Chan α) :=
  match c.buf with
  | [] => none
  | x :: rest => some (x, { c with buf := rest })

/-- Library functions taken as given. -/
structure Given where
  /-- Function `json.Unmarshal(payload, &printMsg)`: the decoded message, `none` on error. -/
  jsonUnmarshal : Bytes → Option PrintMessage
  /-- Method `base64.StdEncoding.DecodeString`: `none` on error. -/
  base64Decode : Bytes → Option Bytes
  /-- Function `transform.String(charmap.CodePage850.NewEncoder(), input)`: `none` on error. -/
  cp850 : Bytes → Option Bytes
  /-- Function `strings.Map(unicode.ToLower, s)`. -/
  mapToLower : Bytes → Bytes

/-! ## processMessage -/

/-- The errors `processMessage` returns, one per `fmt.Errorf` of the source. -/
inductive ProcError
  | tcpConnectionFailed
  | setWriteDeadlineFailed
  | sendMessageFailed
  | sendCutFailed
  | usbOpenFailed
  | usbSendMessageFailed
  | usbSendCutFailed
  deriving DecidableEq, Repr

/-- What the transport answers during one delivery attempt. -/
structure SinkEnv where
  /-- Call `net.DialTimeout` / `os.OpenFile` returns an error. -/
  openFails : Bool
  /-- Call `conn.SetWriteDeadline` returns an error. -/
  deadlineFails : Bool
  /-- Write of the message: `none` when it succeeds, `some n` when it fails after `n` bytes. -/
  messageWrite : Option Nat
  /-- Write of the cut command, in the same way. -/
  cutWrite : Option Nat
  deriving DecidableEq, Repr

/-- One `Write` call on the connection or the device: the bytes that reached the
sink and whether the call returned an error. -/
def sinkWrite (data : Bytes) (outcome : Option Nat) : Bytes × Bool :=
  match outcome with
  | none => (data, false)
  | some n => (data.take n, true)

/-- The ESC/POS cut command `[]byte{0x0A, 0x1B, 0x6D, 0x0A}` of `processMessage`. -/
def cutCommand : Bytes := [0x0A, 0x1B, 0x6D, 0x0A]

/-- Method `processMessage`: the bytes written to the sink during the attempt and
the error returned (`none` for `nil`). -/
def processMessage (g : Given) (config : Config) (env : SinkEnv) (msg : PrintMessage) :
    Bytes × Option ProcError :=
  if config.USBHost = [] then
    if env.openFails then ([], some .tcpConnectionFailed)
    else if env.deadlineFails then ([], some .setWriteDeadlineFailed)
    else
      let (w1, err1) := sinkWrite (Sprintf msg.Message) env.messageWrite
      if err1 then (w1, some .sendMessageFailed)
      else if ToLower g.mapToLower msg.Cut = ascii "true" then
        let (w2, err2) := sinkWrite cutCommand env.cutWrite
        if err2 then (w1 ++ w2, some .sendCutFailed) else (w1 ++ w2, none)
      else (w1, none)
  else
    if env.openFails then ([], some .usbOpenFailed)
    else
      let (w1, err1) := sinkWrite msg.Message env.messageWrite
      if err1 then (w1, some .usbSendMessageFailed)
      else if ToLower g.mapToLower msg.Cut = ascii "true" then
        let (w2, err2) := sinkWrite cutCommand env.cutWrite
        if err2 then (w1 ++ w2, some .usbSendCutFailed) else (w1 ++ w2, none)
      else (w1, none)

/-! ## The service and its goroutines

The state of the service between `Start` and the closing of the channels in
`Stop`: the two channels and the cancellation flag of `PrinterService`, the
local variables `buffer` and `backoff` of `tcpSender`, and which goroutines
are still running.  `trace` is a history variable: it records, oldest first,
what the goroutines did and takes no part in any decision. -/

/-- What is recorded in the history of an execution. -/
inductive Obs
  /-- Function `handleMessage` sent the job on `messageQueue`. -/
  | enqueued (msg : PrintMessage)
  /-- Function `tcpSender` received the job and appended it to `buffer`. -/
  | received (msg : PrintMessage)
  /-- Function `tcpSender` called `processMessage(&buffer[0])`: the job, the bytes that
  reached the sink and the error returned. -/
  | attempt (msg : PrintMessage) (written : Bytes) (err : Option ProcError)
  /-- Function `tcpSender` called `sendCallback(id, url, success)`. -/
  | callback (id url : Bytes) (success : Bool)
  /-- Function `tcpSender` executed `buffer = buffer[1:]`, dropping the job. -/
  | removed (msg : PrintMessage)
  /-- Function `tcpSender` executed `time.Sleep(backoff)`. -/
  | retrySleep (d : Nat)
  /-- Function `tcpSender` found `buffer` empty and slept 100ms. -/
  | idleSleep
  /-- Function `callbackSender` received the item and called `sendHTTPCallback`. -/
  | post (cb : CallbackData)
  deriving DecidableEq, Repr

/-- The service state. -/
structure State where
  messageQueue : Chan PrintMessage
  callbackQueue : Chan CallbackData
  /-- The context `ctx` has been cancelled. -/
  cancelled : Bool
  /-- Local variable `buffer` of `tcpSender`. -/
  buffer : List PrintMessage
  /-- Local variable `backoff` of `tcpSender`, in nanoseconds. -/
  backoff : Nat
  /-- Goroutine `tcpSender` has not returned. -/
  senderRunning : Bool
  /-- Goroutine `callbackSender` has not returned. -/
  notifierRunning : Bool
  trace : List Obs
  deriving DecidableEq, Repr

/-- Function `NewPrinterService` followed by `Start`: both channels are made with
capacity 100, and `tcpSender` starts with an empty `buffer` and a `backoff` of
one second. -/
def NewPrinterService : State :=
  { messageQueue := Chan.make 100
    callbackQueue := Chan.make 100
    cancelled := false
    buffer := []
    backoff := Second
    senderRunning := true
    notifierRunning := true
    trace := [] }

/-- Method `sendCallback`: the callback queue after the call; `none` when the
send blocks on a full queue. -/
def sendCallback (callbackQueue : Chan CallbackData) (messageID callbackURL : Bytes)
    (success : Bool) : Option (Chan CallbackData) :=
  if callbackURL = [] then some callbackQueue
  else
    let callbackJSON := Marshal [(ascii "success", FormatBool success), (ascii "id", messageID)]
    callbackQueue.send { URL := callbackURL, Data := callbackJSON }

/-- Method `encodeToCP850`. -/
def encodeToCP850 (g : Given) (input : Bytes) : Option Bytes := g.cp850 input

/-- Method `handleMessage` on the payload of one MQTT message, `now` being the
reading of `time.Now()`; `none` when the send on `messageQueue` blocks. -/
def handleMessage (g : Given) (s : State) (payload : Bytes) (now : Int) : Option State :=
  match g.jsonUnmarshal payload with
  | none => some s
  | some parsed =>
    let printMsg : PrintMessage := { parsed with Timestamp := now }
    let printMsg : PrintMessage :=
      match g.base64Decode printMsg.Message with
      | some decodedMsg => { printMsg with Message := decodedMsg }
      | none => printMsg
    match encodeToCP850 g printMsg.Message with
    | some encodedMsg =>
      let printMsg : PrintMessage := { printMsg with Message := encodedMsg }
      match s.messageQueue.send printMsg with
      | some q => some { s with messageQueue := q, trace := s.trace ++ [.enqueued printMsg] }
      | none => none
    | none => some s

/-- The backoff after a failed attempt on a job that is not stale:
`time.Duration(float64(backoff) * 1.5)` capped at 30s.  For a backoff below
2^52 nanoseconds the product is a multiple of one half below 2^53, so the
float64 arithmetic is exact and the conversion truncates `3 * backoff / 2`. -/
def nextBackoff (backoff : Nat) : Nat :=
  if backoff * 3 / 2 > 30 * Second then 30 * Second else backoff * 3 / 2

/-- The `default` case of the `select` in `tcpSender`: one delivery attempt on
`buffer[0]`, or the idle sleep.  `env` is what the transport answers and `now`
the clock reading used by `time.Since`. -/
def senderDefault (g : Given) (config : Config) (s : State) (env : SinkEnv) (now : Int) :
    Option State :=
  match s.buffer with
  | [] => some { s with trace := s.trace ++ [.idleSleep] }
  | head :: rest =>
    match processMessage g config env head with
    | (written, some err) =>
      if now - head.Timestamp > (Minute : Int) then
        match sendCallback s.callbackQueue head.ID head.Callback false with
        | some q =>
          some { s with
            callbackQueue := q
            buffer := rest
            trace := s.trace ++ [.attempt head written (some err),
              .callback head.ID head.Callback false, .removed head] }
        | none => none
      else
        some { s with
          backoff := nextBackoff s.backoff
          trace := s.trace ++ [.attempt head written (some err), .retrySleep s.backoff] }
    | (written, none) =>
      match sendCallback s.callbackQueue head.ID head.Callback true with
      | some q =>
        some { s with
          callbackQueue := q
          buffer := rest
          backoff := Second
          trace := s.trace ++ [.attempt head written none,
            .callback head.ID head.Callback true, .removed head] }
      | none => none

/-- The steps of an execution. -/
inductive Event
  /-- An MQTT message arrives and `handleMessage` runs on it. -/
  | mqtt (payload : Bytes) (now : Int)
  /-- Method `Stop` cancels the context. -/
  | cancel
  /-- Function `tcpSender` takes the case `<-s.ctx.Done()` and returns. -/
  | senderDone
  /-- Function `tcpSender` takes the case `msg := <-s.messageQueue`. -/
  | senderRecv
  /-- Function `tcpSender` takes the `default` case. -/
  | senderDefault (env : SinkEnv) (now : Int)
  /-- Function `callbackSender` takes the case `<-s.ctx.Done()` and returns. -/
  | notifierDone
  /-- Function `callbackSender` takes the case `callback := <-s.callbackQueue`. -/
  | notifierRecv
  deriving DecidableEq, Repr

/-- One step of the service; `none` when the step cannot be taken in this state
(the goroutine has returned, the `select` case is not ready, or a channel
send blocks).  A `select` takes its `default` case only when no other case is
ready. -/
def step (g : Given) (config : Config) (s : State) : Event → Option State
  | .mqtt payload now => handleMessage g s payload now
  | .cancel => some { s with cancelled := true }
  | .senderDone =>
    if s.senderRunning ∧ s.cancelled then some { s with senderRunning := false } else none
  | .senderRecv =>
    if s.senderRunning then
      match s.messageQueue.recv with
      | some (msg, q) =>
        some { s with
          messageQueue := q
          buffer := s.buffer ++ [msg]
          trace := s.trace ++ [.received msg] }
      | none => none
    else none
  | .senderDefault env now =>
    if s.senderRunning ∧ ¬ s.cancelled ∧ s.messageQueue.buf = [] then
      senderDefault g config s env now
    else none
  | .notifierDone =>
    if s.notifierRunning ∧ s.cancelled then some { s with notifierRunning := false } else none
  | .notifierRecv =>
    if s.notifierRunning then
      match s.callbackQueue.recv with
      | some (cb, q) => some { s with callbackQueue := q, trace := s.trace ++ [.post cb] }
      | none => none
    else none

/-- An execution: the steps taken one after the other. -/
def run (g : Given) (config : Config) : State → List Event → Option State
  | s, [] => some s
  | s, e :: es =>
    match step g config s e with
    | some s1 => run g config s1 es
    | none => none

/-! ## Reading a history -/

/-- The calls of `sendCallback` recorded in a history: id, callback URL, success. -/
def callbacksOf (tr : List Obs) : List (Bytes × Bytes × Bool) :=
  tr.filterMap fun o =>
    match o with
    | .callback id url success => some (id, url, success)
    | _ => none

/-- The jobs `tcpSender` received from `messageQueue`, in order. -/
def receivedOf (tr : List Obs) : List PrintMessage :=
  tr.filterMap fun o =>
    match o with
    | .received msg => some msg
    | _ => none

/-- The jobs `tcpSender` removed from its buffer (delivered or dropped), in order. -/
def removedOf (tr : List Obs) : List PrintMessage :=
  tr.filterMap fun o =>
    match o with
    | .removed msg => some msg
    | _ => none

/-- The items `callbackSender` posted, in order. -/
def postsOf (tr : List Obs) : List CallbackData :=
  tr.filterMap fun o =>
    match o with
    | .post cb => some cb
    | _ => none

/-! ## Properties of states and histories -/

/-- Every delivery attempt recorded in the history was made on the oldest job
received and not yet removed: when the attempt on `m` starts, the jobs received
so far are the jobs removed so far, then `m`, then the jobs behind it. -/
def AttemptsAtHead (tr : List Obs) : Prop :=
  ∀ pre m written err post, tr = pre ++ Obs.attempt m written err :: post →
    ∃ later, receivedOf pre = removedOf pre ++ m :: later

/-- Two retry sleeps with no removal of a job between them (they are retries of
the same head job) are in non-decreasing order. -/
def DelaysOrdered (tr : List Obs) : Prop :=
  ∀ pre d1 mid d2 post,
    tr = pre ++ Obs.retrySleep d1 :: (mid ++ Obs.retrySleep d2 :: post) →
    (∀ m, Obs.removed m ∉ mid) → d1 ≤ d2

/-- Every retry sleep lasts at least 1s and at most 30s. -/
def DelaysBounded (tr : List Obs) : Prop :=
  ∀ d, Obs.retrySleep d ∈ tr → Second ≤ d ∧ d ≤ 30 * Second

/-- The retry sleeps of the job now at the head are at most `bo`. -/
def DelaysBelow (tr : List Obs) (bo : Nat) : Prop :=
  ∀ pre d mid, tr = pre ++ Obs.retrySleep d :: mid → (∀ m, Obs.removed m ∉ mid) → d ≤ bo

/-- The backoff invariant of `tcpSender`. -/
def BackoffInv (s : State) : Prop :=
  Second ≤ s.backoff ∧ s.backoff ≤ 30 * Second
    ∧ DelaysOrdered s.trace ∧ DelaysBounded s.trace ∧ DelaysBelow s.trace s.backoff

/-- Plain alphanumeric bytes: `0`..`9`, `A`..`Z`, `a`..`z`. -/
def isAlnum (b : Nat) : Prop :=
  (0x30 ≤ b ∧ b ≤ 0x39) ∨ (0x41 ≤ b ∧ b ≤ 0x5A) ∨ (0x61 ≤ b ∧ b ≤ 0x7A)

/-- Every item waiting in the callback queue and every item posted carries a
non-empty URL. -/
def CallbackURLsSet (s : State) : Prop :=
  (∀ cb ∈ s.callbackQueue.buf, cb.URL ≠ []) ∧ (∀ cb ∈ postsOf s.trace, cb.URL ≠ [])

/-- The jobs waiting in `messageQueue` never exceed its capacity, which stays 100. -/
def QueueBounded (s : State) : Prop :=
  s.messageQueue.cap = 100 ∧ s.messageQueue.buf.length ≤ s.messageQueue.cap

/-! ## Values used in the examples -/

/-- A stand-in for the given library functions: the payload is taken as the id
and the message of the job, nothing is valid base64, and every text encodes to
itself. -/
def sampleGiven : Given :=
  { jsonUnmarshal := fun p =>
      some { ID := p, Message := p, Callback := [], Cut := ascii "false", Timestamp := 0 }
    base64Decode := fun _ => none
    cp850 := fun m => some m
    mapToLower := fun m => m }

/-- A configuration without device path: the TCP variant of the sink. -/
def tcpConfig : Config :=
  { MQTTHost := [], MQTTPort := 0, MQTTUser := [], MQTTPass := [], Topic := [],
    TCPHost := ascii "printer", TCPPort := 9100, USBHost := [] }

/-- A transport on which every call succeeds. -/
def okEnv : SinkEnv :=
  { openFails := false, deadlineFails := false, messageWrite := none, cutWrite := none }

/-- A transport that refuses the connection. -/
def downEnv : SinkEnv :=
  { openFails := true, deadlineFails := false, messageWrite := none, cutWrite := none }

/-- The job `B` of the specification's scenario, accepted at time 0. -/
def jobB : PrintMessage :=
  { ID := ascii "B", Message := ascii "plain text", Callback := ascii "http://x/cb",
    Cut := ascii "false", Timestamp := 0 }

/-- The service with job `B` alone in the buffer of `tcpSender`. -/
def holdingB : State := { NewPrinterService with buffer := [jobB] }

/-- Three refused connections, at 1s, 3s and 5s. -/
def threeFailures : List Event :=
  [.senderDefault downEnv 1000000000, .senderDefault downEnv 3000000000,
   .senderDefault downEnv 5000000000]

/-- The state after the three refused connections and a delivery at 7s. -/
def afterRetries : State :=
  (run sampleGiven tcpConfig holdingB
    (threeFailures ++ [.senderDefault okEnv 7000000000])).getD holdingB

/-- The state after a refused connection at 61s with job `B` at the head. -/
def afterStaleDrop : State :=
  (step sampleGiven tcpConfig holdingB (.senderDefault downEnv 61000000000)).getD holdingB

/-- Two messages arrive and are received; the first is refused once at 1s and
delivered at 2s, the second is delivered at 3s. -/
def twoJobs : List Event :=
  [.mqtt (ascii "A") 0, .mqtt (ascii "B") 0, .senderRecv, .senderRecv,
   .senderDefault downEnv 1000000000, .senderDefault okEnv 2000000000,
   .senderDefault okEnv 3000000000]

/-- The state after the execution `twoJobs`. -/
def afterTwoJobs : State :=
  (run sampleGiven tcpConfig NewPrinterService twoJobs).getD NewPrinterService

/-- A message arrives and is received, is refused at 1s, 3s and 5s and delivered
at 7s. -/
def retriedJob : List Event :=
  [.mqtt (ascii "B") 0, .senderRecv] ++ threeFailures ++ [.senderDefault okEnv 7000000000]

/-- The state after the execution `retriedJob`. -/
def afterRetriedJob : State :=
  (run sampleGiven tcpConfig NewPrinterService retriedJob).getD NewPrinterService

/-- A message arrives and `tcpSender` receives it. -/
def oneReceived : List Event := [.mqtt (ascii "A") 0, .senderRecv]

/-- The state after the execution `oneReceived`. -/
def afterOneReceived : State :=
  (run sampleGiven tcpConfig NewPrinterService oneReceived).getD NewPrinterService

/-- One message arrives and is received by `tcpSender`, 101 times over. -/
def burst : List Event := (List.replicate 101 [Event.mqtt [] 0, Event.senderRecv]).flatten

/-- The state after the execution `burst`. -/
def afterBurst : State :=
  (run sampleGiven tcpConfig NewPrinterService burst).getD NewPrinterService

/-- A stand-in for the given library functions on the specification's scenario:
every payload parses to job `A` with the message `SGVsbG8=`, which is the
base64 text of `Hello`; every text encodes to itself. -/
def scenarioGiven : Given :=
  { jsonUnmarshal := fun _ =>
      some { ID := ascii "A", Message := ascii "SGVsbG8=", Callback := [],
             Cut := ascii "true", Timestamp := 0 }
    base64Decode := fun m => if m = ascii "SGVsbG8=" then some (ascii "Hello") else none
    cp850 := fun m => some m
    mapToLower := fun m => m }

/-- The state after the execution `oneReceived` followed by one more message. -/
def afterOneQueued : State :=
  (run sampleGiven tcpConfig NewPrinterService
    (oneReceived ++ [.mqtt (ascii "B") 1])).getD NewPrinterService

/-- The first message as `sampleGiven` makes it a job, accepted at time 0. -/
def oldJob : PrintMessage :=
  { ID := ascii "A", Message := ascii "A", Callback := [], Cut := ascii "false", Timestamp := 0 }

/-- The second message as `sampleGiven` makes it a job, accepted at 50s. -/
def newJob : PrintMessage :=
  { ID := ascii "B", Message := ascii "B", Callback := [], Cut := ascii "false",
    Timestamp := 50000000000 }

/-- A message arrives at time 0 and is refused at 1s; a second message arrives at
50s; both are in the buffer. -/
def beforeStale : List Event :=
  [.mqtt (ascii "A") 0, .senderRecv, .senderDefault downEnv 1000000000,
   .mqtt (ascii "B") 50000000000, .senderRecv]

/-- The state after the execution `beforeStale`. -/
def atStale : State :=
  (run sampleGiven tcpConfig NewPrinterService beforeStale).getD NewPrinterService

/-- The state after the first job is refused again at 61s and dropped as stale. -/
def afterDrop : State :=
  (step sampleGiven tcpConfig atStale (.senderDefault downEnv 61000000000)).getD atStale

/-- The state after the second job is refused at 62s. -/
def afterNextRetry : State :=
  (step sampleGiven tcpConfig afterDrop (.senderDefault downEnv 62000000000)).getD afterDrop

/-- A configuration with a device path: the device variant of the sink. -/
def usbConfig : Config :=
  { MQTTHost := [], MQTTPort := 0, MQTTUser := [], MQTTPass := [], Topic := [],
    TCPHost := [], TCPPort := 0, USBHost := ascii "/dev/usb/lp0" }

/-- A job with the payload `100%` that asks for a cut. -/
def percentCutJob : PrintMessage :=
  { ID := ascii "P", Message := ascii "100%", Callback := [], Cut := ascii "true",
    Timestamp := 0 }

/-- A job with the payload `100%` that asks for no cut. -/
def percentNoCutJob : PrintMessage :=
  { ID := ascii "Q", Message := ascii "100%", Callback := [], Cut := ascii "false",
    Timestamp := 0 }

/-! ## Lemmas on the library models -/

theorem takeWhile_ne_percent (format : Bytes) (h : 0x25 ∉ format) :
    format.takeWhile (fun c => c != 0x25) = format := by
  rw [List.takeWhile_eq_self_iff]
  intro c hc
  have : c ≠ 0x25 := fun e => h (e ▸ hc)
  simpa using this

/-- A format without percent sign is written as it is. -/
theorem Sprintf_of_no_percent (format : Bytes) (h : 0x25 ∉ format) :
    Sprintf format = format := by
  unfold Sprintf
  cases hf : format with
  | nil => rfl
  | cons c t =>
    rw [← hf]
    have hlen : format.length = t.length + 1 := by rw [hf]; rfl
    rw [hlen, formatLoop]
    have hturn : formatTurn format 0 = (format, none) := by
      unfold formatTurn
      simp only [List.drop_zero, takeWhile_ne_percent format h]
      simp
    rw [hturn]
    simp [hlen]

theorem parsenumLoop_bounds (s : Bytes) (end_ : Nat) :
    ∀ fuel newi num isnum, newi ≤ end_ →
      newi ≤ (parsenumLoop s end_ fuel newi num isnum).2.2
        ∧ (parsenumLoop s end_ fuel newi num isnum).2.2 ≤ end_ := by
  intro fuel
  induction fuel with
  | zero =>
    intro newi num isnum h
    exact ⟨le_refl _, h⟩
  | succ fuel ih =>
    intro newi num isnum h
    unfold parsenumLoop
    split
    · rename_i hc
      split
      · exact ⟨h, le_refl _⟩
      · have := ih (newi + 1) (num * 10 + (s.getD newi 0 - 0x30)) true (by omega)
        exact ⟨by omega, this.2⟩
    · exact ⟨le_refl _, h⟩

theorem parsenum_bounds (s : Bytes) (start end_ : Nat) (h : start ≤ end_) :
    start ≤ (parsenum s start end_).2.2 ∧ (parsenum s start end_).2.2 ≤ end_ := by
  unfold parsenum
  split
  · exact ⟨h, le_refl _⟩
  · exact parsenumLoop_bounds s end_ _ start 0 false h

theorem parseArgNumber_bounds (f : Bytes) (h : f ≠ []) :
    1 ≤ (parseArgNumber f).2.1 ∧ (parseArgNumber f).2.1 ≤ f.length := by
  have hlen : 1 ≤ f.length := by
    cases f with
    | nil => exact absurd rfl h
    | cons c t => simp
  unfold parseArgNumber
  by_cases h3 : f.length < 3
  · simp only [h3, if_true]
    exact ⟨le_refl _, hlen⟩
  · simp only [h3, if_false]
    by_cases hk : (f.drop 1).indexOf 0x5D < (f.drop 1).length
    · simp only [hk, if_true]
      simp only [List.length_drop] at hk
      split <;> simp only <;> omega
    · simp only [hk, if_false]
      exact ⟨le_refl _, hlen⟩

theorem argNumber_bounds (format : Bytes) (i : Nat) (good : Bool) (h : i ≤ format.length) :
    i ≤ (argNumber format i good).1 ∧ (argNumber format i good).1 ≤ format.length := by
  unfold argNumber
  split
  · exact ⟨le_refl _, h⟩
  · rename_i hc
    have hi : i < format.length := by omega
    have hne : format.drop i ≠ [] := by
      intro he
      have := congrArg List.length he
      simp only [List.length_drop, List.length_nil] at this
      omega
    have hb := parseArgNumber_bounds (format.drop i) hne
    simp only [List.length_drop] at hb
    simp only
    omega

theorem parseWidth_bounds (format : Bytes) (i : Nat) (afterIndex good : Bool)
    (h : i ≤ format.length) :
    i ≤ (parseWidth format i afterIndex good).1
      ∧ (parseWidth format i afterIndex good).1 ≤ format.length := by
  unfold parseWidth
  split
  · simp only; omega
  · exact parsenum_bounds format i format.length h

theorem parsePrecision_bounds (format : Bytes) (i : Nat) (afterIndex good : Bool)
    (h : i ≤ format.length) :
    i ≤ (parsePrecision format i afterIndex good).1
      ∧ (parsePrecision format i afterIndex good).1 ≤ format.length := by
  unfold parsePrecision
  split
  · rename_i hc
    have ha := argNumber_bounds format (i + 1) (good && !afterIndex) (Nat.le_of_lt hc.1)
    simp only
    split
    · simp only; omega
    · have hp := parsenum_bounds format _ format.length ha.2
      simp only
      omega
  · exact ⟨le_refl _, h⟩

theorem verbStart_bounds (format : Bytes) (i : Nat) (h : i ≤ format.length) :
    i ≤ (verbStart format i).1 ∧ (verbStart format i).1 ≤ format.length := by
  have hflags : ((format.drop i).takeWhile isFlag).length ≤ format.length - i := by
    have := (List.takeWhile_sublist isFlag (l := format.drop i)).length_le
    simpa using this
  unfold verbStart
  simp only
  set i3 := i + ((format.drop i).takeWhile isFlag).length with hi3
  set a := argNumber format i3 true with ha
  set w := parseWidth format a.1 a.2.1 a.2.2 with hw
  set p := parsePrecision format w.1 w.2.1 w.2.2.1 with hp
  have hA : i3 ≤ a.1 ∧ a.1 ≤ format.length := argNumber_bounds format i3 true (by omega)
  have hW : a.1 ≤ w.1 ∧ w.1 ≤ format.length :=
    parseWidth_bounds format a.1 a.2.1 a.2.2 hA.2
  have hP : w.1 ≤ p.1 ∧ p.1 ≤ format.length :=
    parsePrecision_bounds format w.1 w.2.1 w.2.2.1 hW.2
  have hB := argNumber_bounds format p.1 p.2.2.1 hP.2
  split <;> omega

theorem decodeContinuation_size (s0 sz lo hi : Nat) (t : Bytes) :
    1 ≤ (decodeContinuation s0 sz lo hi t).2
      ∧ (decodeContinuation s0 sz lo hi t).2 ≤ t.length + 1 := by
  rcases t with _ | ⟨s1, _ | ⟨s2, _ | ⟨s3, t⟩⟩⟩
  · exact ⟨le_refl _, le_refl _⟩
  all_goals
    simp only [decodeContinuation, List.length_cons, List.length_nil]
    split_ifs <;> constructor <;> simp only <;> omega

theorem DecodeRuneInString_size (s : Bytes) (h : s ≠ []) :
    1 ≤ (DecodeRuneInString s).2 ∧ (DecodeRuneInString s).2 ≤ s.length := by
  cases s with
  | nil => exact absurd rfl h
  | cons s0 t =>
    simp only [DecodeRuneInString]
    generalize (if s0 < 0xE0 then 2 else if s0 < 0xF0 then 3 else 4 : Nat) = sz
    generalize (if s0 = 0xE0 then 0xA0 else if s0 = 0xF0 then 0x90 else 0x80 : Nat) = lo
    generalize (if s0 = 0xED then 0x9F else if s0 = 0xF4 then 0x8F else 0xBF : Nat) = hi
    have hlen : 1 ≤ (s0 :: t).length := by simp
    by_cases h1 : s0 < 0x80
    · simp only [h1, if_true]
      exact ⟨le_refl _, hlen⟩
    · simp only [h1, if_false]
      by_cases h2 : s0 < 0xC2 ∨ 0xF4 < s0
      · simp only [h2, if_true]
        exact ⟨le_refl _, hlen⟩
      · simp only [h2, if_false]
        by_cases h3 : (s0 :: t).length < sz
        · simp only [h3, if_true]
          exact ⟨le_refl _, hlen⟩
        · simp only [h3, if_false]
          have := decodeContinuation_size s0 sz lo hi t
          simpa using this

theorem verbAt_bounds (format : Bytes) (i : Nat) (h : i < format.length) :
    1 ≤ (verbAt format i).2 ∧ i + (verbAt format i).2 ≤ format.length := by
  unfold verbAt
  split
  · have hne : format.drop i ≠ [] := by
      intro he
      have := congrArg List.length he
      simp only [List.length_drop, List.length_nil] at this
      omega
    have hb := DecodeRuneInString_size (format.drop i) hne
    simp only [List.length_drop] at hb
    omega
  · simp only; omega

/-- A turn of the format loop that does not leave the loop moves forward and
stays inside the format. -/
theorem formatTurn_next (format : Bytes) (i j : Nat) (out : Bytes)
    (h : formatTurn format i = (out, some j)) : i < j ∧ j ≤ format.length := by
  unfold formatTurn at h
  simp only at h
  by_cases h1 : i + ((format.drop i).takeWhile (fun c => c != 0x25)).length ≥ format.length
  · simp only [h1, if_true, Prod.mk.injEq] at h
    exact absurd h.2 (by simp)
  · simp only [h1, if_false] at h
    have hv := verbStart_bounds format
      (i + ((format.drop i).takeWhile (fun c => c != 0x25)).length + 1) (by omega)
    by_cases h2 : (verbStart format
        (i + ((format.drop i).takeWhile (fun c => c != 0x25)).length + 1)).1 ≥ format.length
    · simp only [h2, if_true, Prod.mk.injEq] at h
      exact absurd h.2 (by simp)
    · simp only [h2, if_false, Prod.mk.injEq, Option.some.injEq] at h
      have hb := verbAt_bounds format _ (Nat.lt_of_not_le h2)
      omega

/-- More turns than the format has bytes change nothing: no execution of the
format loop is cut short. -/
theorem formatLoop_fuel (format : Bytes) :
    ∀ fuel i buf, format.length - i ≤ fuel →
      formatLoop format (fuel + 1) i buf = formatLoop format fuel i buf := by
  intro fuel
  induction fuel with
  | zero =>
    intro i buf h
    have hi : i ≥ format.length := by omega
    simp [formatLoop, hi]
  | succ fuel ih =>
    intro i buf h
    rw [formatLoop, formatLoop]
    split
    · rfl
    · rename_i hi
      cases ht : formatTurn format i with
      | mk out next =>
        cases next with
        | none => rfl
        | some j =>
          have hj := formatTurn_next format i j out ht
          exact ih j (buf ++ out) (by omega)

theorem Sprintf_fuel (format : Bytes) (k : Nat) :
    formatLoop format (format.length + k) 0 [] = Sprintf format := by
  induction k with
  | zero => rfl
  | succ k ih =>
    rw [← ih, ← Nat.add_assoc]
    exact formatLoop_fuel format (format.length + k) 0 [] (by omega)

/-- More turns than the string has bytes change nothing: no execution of the
escaping loop is cut short. -/
theorem appendStringLoop_fuel :
    ∀ fuel src, src.length ≤ fuel →
      appendStringLoop (fuel + 1) src = appendStringLoop fuel src := by
  intro fuel
  induction fuel with
  | zero =>
    intro src h
    have : src = [] := List.length_eq_zero.mp (by omega)
    subst this
    rfl
  | succ fuel ih =>
    intro src h
    cases src with
    | nil => rfl
    | cons b rest =>
      have hrest : rest.length ≤ fuel := by simpa using h
      have hsize := DecodeRuneInString_size ((b :: rest).take 4) (by simp)
      have hdrop : ((b :: rest).drop (DecodeRuneInString ((b :: rest).take 4)).2).length ≤ fuel := by
        simp only [List.length_drop, List.length_cons] at *
        omega
      rw [appendStringLoop, appendStringLoop]
      simp only [ih rest hrest, ih _ hdrop]

/-! ## C1 -/

/-- C1 (fails on the code): in the TCP variant the message is the format string of
`fmt.Fprintf`.  For the payload `100%` and a transport on which every call
succeeds, `processMessage` returns no error and has written `100%!(NOVERB)`,
which is not the payload. -/
theorem processMessage_tcp_percent_rewritten :
    processMessage sampleGiven tcpConfig okEnv
        { ID := ascii "A", Message := ascii "100%", Callback := [], Cut := ascii "false",
          Timestamp := 0 }
      = (ascii "100%!(NOVERB)", none)
    ∧ ascii "100%!(NOVERB)" ≠ ascii "100%" := by
  decide

/-- In the TCP variant a payload without percent sign is written verbatim, before
any cut bytes, by every delivery that returns no error. -/
theorem processMessage_tcp_verbatim_of_no_percent (g : Given) (config : Config)
    (env : SinkEnv) (msg : PrintMessage) (htcp : config.USBHost = [])
    (hpct : 0x25 ∉ msg.Message) (hok : (processMessage g config env msg).2 = none) :
    ∃ cut, (processMessage g config env msg).1 = msg.Message ++ cut
      ∧ (cut = [] ∨ cut = cutCommand) := by
  unfold processMessage at hok ⊢
  rw [Sprintf_of_no_percent _ hpct] at hok ⊢
  simp only [htcp, if_true] at hok ⊢
  rcases env with ⟨o, d, mw, cw⟩
  cases o <;> cases d <;> cases mw <;> cases cw <;> simp [sinkWrite] at hok ⊢
  all_goals split <;> simp_all

/-! ## C2 -/

/-- Where the message is written verbatim (the device variant, and the TCP
variant for a payload without percent sign), a call of `processMessage` that
returns no error has written the payload followed by exactly `0A 1B 6D 0A`
when the cut field is `"true"`, and the payload alone when it is `"false"`. -/
theorem processMessage_payload_then_cut (g : Given) (config : Config) (env : SinkEnv)
    (msg : PrintMessage) (hverb : config.USBHost ≠ [] ∨ 0x25 ∉ msg.Message)
    (hok : (processMessage g config env msg).2 = none) :
    (msg.Cut = ascii "true" →
      (processMessage g config env msg).1 = msg.Message ++ [0x0A, 0x1B, 0x6D, 0x0A])
    ∧ (msg.Cut = ascii "false" → (processMessage g config env msg).1 = msg.Message) := by
  have htrue : ToLower g.mapToLower (ascii "true") = ascii "true" := rfl
  have hfalse : ToLower g.mapToLower (ascii "false") ≠ ascii "true" := by
    have h : ToLower g.mapToLower (ascii "false") = ascii "false" := rfl
    rw [h]
    decide
  have hwrite : config.USBHost = [] → Sprintf msg.Message = msg.Message := by
    intro hu
    rcases hverb with hv | hv
    · exact absurd hu hv
    · exact Sprintf_of_no_percent _ hv
  rcases env with ⟨o, d, mw, cw⟩
  rcases msg with ⟨id, m, cb, cut, ts⟩
  simp only at hwrite
  constructor
  · intro hcut
    simp only at hcut
    subst hcut
    unfold processMessage at *
    simp only [htrue] at *
    by_cases hu : config.USBHost = []
    · rw [hwrite hu] at *
      cases o <;> cases d <;> cases mw <;> cases cw <;> simp_all [sinkWrite, cutCommand]
    · cases o <;> cases d <;> cases mw <;> cases cw <;> simp_all [sinkWrite, cutCommand]
  · intro hcut
    simp only at hcut
    subst hcut
    unfold processMessage at *
    simp only [hfalse] at *
    by_cases hu : config.USBHost = []
    · rw [hwrite hu] at *
      cases o <;> cases d <;> cases mw <;> cases cw <;> simp_all [sinkWrite, cutCommand]
    · cases o <;> cases d <;> cases mw <;> cases cw <;> simp_all [sinkWrite, cutCommand]

/-- C2 (fails on the code, by the defect of C1): in the TCP variant, on a
transport on which every call succeeds, `processMessage` returns no error on a
job with the payload `100%`; with the cut field `"false"` it has written the
payload followed by the nine bytes `!(NOVERB)`, not by nothing; with the cut
field `"true"` it has written the payload followed by `!(NOVERB)` and then the
cut command, not by exactly `0A 1B 6D 0A`.  The device variant writes, for the
same two jobs, the payload alone and the payload followed by exactly
`0A 1B 6D 0A`. -/
theorem processMessage_tcp_percent_before_cut :
    (processMessage sampleGiven tcpConfig okEnv percentNoCutJob
        = (percentNoCutJob.Message ++ ascii "!(NOVERB)", none)
      ∧ (processMessage sampleGiven tcpConfig okEnv percentNoCutJob).1
          ≠ percentNoCutJob.Message)
    ∧ (processMessage sampleGiven tcpConfig okEnv percentCutJob
        = (percentCutJob.Message ++ ascii "!(NOVERB)" ++ [0x0A, 0x1B, 0x6D, 0x0A], none)
      ∧ (processMessage sampleGiven tcpConfig okEnv percentCutJob).1
          ≠ percentCutJob.Message ++ [0x0A, 0x1B, 0x6D, 0x0A])
    ∧ processMessage sampleGiven usbConfig okEnv percentNoCutJob
        = (percentNoCutJob.Message, none)
    ∧ processMessage sampleGiven usbConfig okEnv percentCutJob
        = (percentCutJob.Message ++ [0x0A, 0x1B, 0x6D, 0x0A], none) := by
  decide

/-! ## Lemmas on histories -/

theorem callbacksOf_append (a b : List Obs) :
    callbacksOf (a ++ b) = callbacksOf a ++ callbacksOf b := by
  simp [callbacksOf]

theorem receivedOf_append (a b : List Obs) :
    receivedOf (a ++ b) = receivedOf a ++ receivedOf b := by
  simp [receivedOf]

theorem removedOf_append (a b : List Obs) :
    removedOf (a ++ b) = removedOf a ++ removedOf b := by
  simp [removedOf]

theorem postsOf_append (a b : List Obs) :
    postsOf (a ++ b) = postsOf a ++ postsOf b := by
  simp [postsOf]

/-- Where a history extended by one record can be cut at a given record: at the new
record, or inside the old history. -/
theorem snoc_split {α : Type} (tr pre post : List α) (o a : α)
    (h : tr ++ [o] = pre ++ a :: post) :
    (pre = tr ∧ a = o ∧ post = []) ∨ (∃ post1, post = post1 ++ [o] ∧ tr = pre ++ a :: post1) := by
  rcases List.eq_nil_or_concat post with rfl | ⟨post1, x, rfl⟩
  · left
    obtain ⟨h1, h2⟩ := List.append_inj' h rfl
    simp only [List.cons.injEq, and_true] at h2
    exact ⟨h1.symm, h2.symm, rfl⟩
  · right
    have h3 : tr ++ [o] = (pre ++ a :: post1) ++ [x] := by
      rw [h]; simp
    obtain ⟨h1, h2⟩ := List.append_inj' h3 rfl
    simp only [List.cons.injEq, and_true] at h2
    exact ⟨post1, by rw [h2, List.concat_eq_append], h1⟩

theorem attemptsAtHead_snoc (tr : List Obs) (o : Obs) (h : AttemptsAtHead tr)
    (ho : ∀ m written err, o = .attempt m written err →
      ∃ later, receivedOf tr = removedOf tr ++ m :: later) :
    AttemptsAtHead (tr ++ [o]) := by
  intro pre m written err post heq
  rcases snoc_split tr pre post o _ heq with ⟨h1, h2, _⟩ | ⟨post1, _, h2⟩
  · subst h1
    exact ho m written err h2.symm
  · exact h pre m written err post1 h2

theorem delaysOrdered_snoc (tr : List Obs) (o : Obs) (bo : Nat) (h : DelaysOrdered tr)
    (hb : DelaysBelow tr bo) (ho : ∀ d, o = .retrySleep d → bo ≤ d) :
    DelaysOrdered (tr ++ [o]) := by
  intro pre d1 mid d2 post heq hmid
  have heq2 : tr ++ [o] = (pre ++ Obs.retrySleep d1 :: mid) ++ Obs.retrySleep d2 :: post := by
    rw [heq]; simp
  rcases snoc_split tr _ post o _ heq2 with ⟨h1, h2, _⟩ | ⟨post1, _, h2⟩
  · have hd1 := hb pre d1 mid h1.symm hmid
    have hd2 := ho d2 h2.symm
    omega
  · exact h pre d1 mid d2 post1 (by rw [h2]; simp) hmid

theorem delaysBelow_snoc (tr : List Obs) (o : Obs) (bo bo1 : Nat) (hb : DelaysBelow tr bo)
    (hle : bo ≤ bo1) (ho : ∀ d, o = .retrySleep d → d ≤ bo1) :
    DelaysBelow (tr ++ [o]) bo1 := by
  intro pre d mid heq hmid
  rcases snoc_split tr pre mid o _ heq with ⟨_, h2, _⟩ | ⟨mid1, hm, h2⟩
  · exact ho d h2.symm
  · have hmid1 : ∀ m, Obs.removed m ∉ mid1 := by
      intro m hmem
      exact hmid m (by rw [hm]; exact List.mem_append_left _ hmem)
    have := hb pre d mid1 h2 hmid1
    omega

theorem delaysBelow_removed (tr : List Obs) (m : PrintMessage) (bo1 : Nat) :
    DelaysBelow (tr ++ [.removed m]) bo1 := by
  intro pre d mid heq hmid
  rcases snoc_split tr pre mid _ _ heq with ⟨_, h2, _⟩ | ⟨mid1, hm, _⟩
  · cases h2
  · exact (hmid m (by rw [hm]; simp)).elim

theorem delaysBounded_snoc (tr : List Obs) (o : Obs) (h : DelaysBounded tr)
    (ho : ∀ d, o = .retrySleep d → Second ≤ d ∧ d ≤ 30 * Second) :
    DelaysBounded (tr ++ [o]) := by
  intro d hmem
  rcases List.mem_append.mp hmem with hm | hm
  · exact h d hm
  · have ho1 : Obs.retrySleep d = o := by simpa using hm
    exact ho d ho1.symm

theorem nextBackoff_eq_min (bo : Nat) : nextBackoff bo = min (bo * 3 / 2) (30 * Second) := by
  unfold nextBackoff
  split <;> omega

theorem le_nextBackoff (bo : Nat) (h : bo ≤ 30 * Second) : bo ≤ nextBackoff bo := by
  unfold nextBackoff
  split <;> omega

theorem nextBackoff_bounds (bo : Nat) (h : Second ≤ bo) :
    Second ≤ nextBackoff bo ∧ nextBackoff bo ≤ 30 * Second := by
  unfold nextBackoff
  have : Second = 1000000000 := by decide
  split <;> omega

/-! ## Lemmas on executions -/

theorem run_append (g : Given) (config : Config) (s : State) (es1 es2 : List Event) :
    run g config s (es1 ++ es2) = (run g config s es1).bind (fun s1 => run g config s1 es2) := by
  induction es1 generalizing s with
  | nil => rfl
  | cons e es ih =>
    simp only [List.cons_append, run]
    cases step g config s e with
    | none => rfl
    | some s1 => exact ih s1

theorem run_snoc (g : Given) (config : Config) (s s2 : State) (es : List Event) (e : Event)
    (h : run g config s (es ++ [e]) = some s2) :
    ∃ s1, run g config s es = some s1 ∧ step g config s1 e = some s2 := by
  rw [run_append] at h
  cases h1 : run g config s es with
  | none => rw [h1] at h; cases h
  | some s1 =>
    refine ⟨s1, rfl, ?_⟩
    rw [h1] at h
    simp only [Option.bind, run] at h
    cases h2 : step g config s1 e with
    | none => rw [h2] at h; cases h
    | some s3 => rw [h2] at h; simpa using h

/-- A property that holds initially and that every step preserves holds after
every execution. -/
theorem run_invariant (g : Given) (config : Config) (P : State → Prop)
    (hstep : ∀ s e s1, P s → step g config s e = some s1 → P s1)
    (s : State) (es : List Event) (s1 : State) (h0 : P s)
    (hrun : run g config s es = some s1) : P s1 := by
  induction es generalizing s with
  | nil => simp only [run, Option.some.injEq] at hrun; exact hrun ▸ h0
  | cons e es ih =>
    simp only [run] at hrun
    cases h1 : step g config s e with
    | none => rw [h1] at hrun; cases hrun
    | some s2 =>
      rw [h1] at hrun
      exact ih s2 (hstep s e s2 h0 h1) hrun

/-- The effect of a step that is not a delivery attempt on the buffer, the
backoff and the calls of `sendCallback`. -/
theorem step_other (g : Given) (config : Config) (s s1 : State) (e : Event)
    (hne : ∀ env now, e ≠ .senderDefault env now) (h : step g config s e = some s1) :
    (∃ later, s1.buffer = s.buffer ++ later ∧ receivedOf s1.trace = receivedOf s.trace ++ later)
    ∧ s1.backoff = s.backoff
    ∧ callbacksOf s1.trace = callbacksOf s.trace
    ∧ removedOf s1.trace = removedOf s.trace := by
  cases e with
  | senderDefault env now => exact absurd rfl (hne env now)
  | mqtt payload now =>
    simp only [step, handleMessage, encodeToCP850] at h
    split at h
    · cases h; exact ⟨⟨[], by simp⟩, rfl, rfl, rfl⟩
    · split at h
      · split at h
        · cases h
          exact ⟨⟨[], by simp [receivedOf]⟩, rfl, by simp [callbacksOf], by simp [removedOf]⟩
        · cases h
      · cases h; exact ⟨⟨[], by simp⟩, rfl, rfl, rfl⟩
  | cancel =>
    simp only [step] at h
    cases h; exact ⟨⟨[], by simp⟩, rfl, rfl, rfl⟩
  | senderDone =>
    simp only [step] at h
    split at h
    · cases h; exact ⟨⟨[], by simp⟩, rfl, rfl, rfl⟩
    · cases h
  | senderRecv =>
    simp only [step] at h
    split at h
    · split at h
      · cases h
        exact ⟨⟨[_], rfl, by simp [receivedOf]⟩, rfl, by simp [callbacksOf], by simp [removedOf]⟩
      · cases h
    · cases h
  | notifierDone =>
    simp only [step] at h
    split at h
    · cases h; exact ⟨⟨[], by simp⟩, rfl, rfl, rfl⟩
    · cases h
  | notifierRecv =>
    simp only [step] at h
    split at h
    · split at h
      · cases h
        exact ⟨⟨[], by simp [receivedOf]⟩, rfl, by simp [callbacksOf], by simp [removedOf]⟩
      · cases h
    · cases h

/-- The effect of a delivery attempt on a non-empty buffer, case by case. -/
theorem step_attempt (g : Given) (config : Config) (s s1 : State) (env : SinkEnv) (now : Int)
    (job : PrintMessage) (rest : List PrintMessage) (hbuf : s.buffer = job :: rest)
    (h : step g config s (.senderDefault env now) = some s1) :
    (∀ written, processMessage g config env job = (written, none) →
      ∃ q, sendCallback s.callbackQueue job.ID job.Callback true = some q ∧
        s1 = { s with
          callbackQueue := q
          buffer := rest
          backoff := Second
          trace := s.trace ++ [.attempt job written none,
            .callback job.ID job.Callback true, .removed job] })
    ∧ (∀ written err, processMessage g config env job = (written, some err) →
        now - job.Timestamp > (Minute : Int) →
        ∃ q, sendCallback s.callbackQueue job.ID job.Callback false = some q ∧
          s1 = { s with
            callbackQueue := q
            buffer := rest
            trace := s.trace ++ [.attempt job written (some err),
              .callback job.ID job.Callback false, .removed job] })
    ∧ (∀ written err, processMessage g config env job = (written, some err) →
        ¬ now - job.Timestamp > (Minute : Int) →
        s1 = { s with
          backoff := nextBackoff s.backoff
          trace := s.trace ++ [.attempt job written (some err), .retrySleep s.backoff] }) := by
  rcases s with ⟨mq, cq, cn, buf, bo, sr, nr, tr⟩
  simp only at hbuf
  subst hbuf
  simp only [step] at h
  split at h
  · simp only [senderDefault] at h
    refine ⟨?_, ?_, ?_⟩
    · intro written hp
      rw [hp] at h
      simp only at h
      split at h
      · rename_i q hq
        exact ⟨q, hq, by cases h; rfl⟩
      · cases h
    · intro written err hp hstale
      rw [hp] at h
      simp only [hstale, if_true] at h
      split at h
      · rename_i q hq
        exact ⟨q, hq, by cases h; rfl⟩
      · cases h
    · intro written err hp hfresh
      rw [hp] at h
      simp only [hfresh, if_false] at h
      cases h; rfl
  · cases h

/-- A delivery attempt on an empty buffer only sleeps. -/
theorem step_idle (g : Given) (config : Config) (s s1 : State) (env : SinkEnv) (now : Int)
    (hbuf : s.buffer = []) (h : step g config s (.senderDefault env now) = some s1) :
    s1 = { s with trace := s.trace ++ [.idleSleep] } := by
  rcases s with ⟨mq, cq, cn, buf, bo, sr, nr, tr⟩
  simp only at hbuf
  subst hbuf
  simp only [step] at h
  split at h
  · simp only [senderDefault] at h
    cases h; rfl
  · cases h

/-- While every delivery attempt fails on a job that is not stale, the job stays
at the head of the buffer and `sendCallback` is not called. -/
theorem run_failing_keeps_head (g : Given) (config : Config) (job : PrintMessage)
    (es : List Event) :
    ∀ (s s1 : State) (rest : List PrintMessage), s.buffer = job :: rest →
      (∀ env1 now1, Event.senderDefault env1 now1 ∈ es →
        (processMessage g config env1 job).2 ≠ none ∧ now1 - job.Timestamp ≤ (Minute : Int)) →
      run g config s es = some s1 →
      ∃ later, s1.buffer = job :: (rest ++ later)
        ∧ callbacksOf s1.trace = callbacksOf s.trace
        ∧ removedOf s1.trace = removedOf s.trace := by
  induction es with
  | nil =>
    intro s s1 rest hbuf _ hrun
    simp only [run, Option.some.injEq] at hrun
    subst hrun
    exact ⟨[], by simpa using hbuf, rfl, rfl⟩
  | cons e es ih =>
    intro s s1 rest hbuf hfail hrun
    simp only [run] at hrun
    cases h1 : step g config s e with
    | none => rw [h1] at hrun; cases hrun
    | some s2 =>
      rw [h1] at hrun
      have hfail2 : ∀ env1 now1, Event.senderDefault env1 now1 ∈ es →
          (processMessage g config env1 job).2 ≠ none
            ∧ now1 - job.Timestamp ≤ (Minute : Int) :=
        fun env1 now1 hm => hfail env1 now1 (List.mem_cons_of_mem _ hm)
      by_cases hd : ∃ env now, e = .senderDefault env now
      · obtain ⟨env, now, rfl⟩ := hd
        obtain ⟨hne, hage⟩ := hfail env now (List.mem_cons_self _ _)
        obtain ⟨_, _, h3⟩ := step_attempt g config s s2 env now job rest hbuf h1
        cases hp : processMessage g config env job with
        | mk written err =>
          cases err with
          | none => rw [hp] at hne; exact absurd rfl hne
          | some err =>
            have hs2 := h3 written err hp (by omega)
            have hb2 : s2.buffer = job :: rest := by rw [hs2]; exact hbuf
            obtain ⟨later, hl, hc, hr⟩ := ih s2 s1 rest hb2 hfail2 hrun
            refine ⟨later, hl, ?_, ?_⟩
            · rw [hc, hs2]; simp only [callbacksOf_append]; simp [callbacksOf]
            · rw [hr, hs2]; simp only [removedOf_append]; simp [removedOf]
      · have hne : ∀ env now, e ≠ .senderDefault env now :=
          fun env now he => hd ⟨env, now, he⟩
        obtain ⟨⟨l1, hl1, _⟩, _, hc1, hr1⟩ := step_other g config s s2 e hne h1
        have hb2 : s2.buffer = job :: (rest ++ l1) := by rw [hl1, hbuf]; rfl
        obtain ⟨later, hl, hc, hr⟩ := ih s2 s1 (rest ++ l1) hb2 hfail2 hrun
        exact ⟨l1 ++ later, by rw [hl, List.append_assoc], by rw [hc, hc1], by rw [hr, hr1]⟩

/-! ## C3 -/

/-- C3: in `tcpSender`, when the head job's delivery attempts fail any number of
times, each while the job's age is at most 60s, and then one attempt succeeds
(other steps of the service may come in between), `sendCallback` is called
exactly once during that execution, for that job and with success = true, never
with success = false, and the succeeding step removes the job from the head of
the buffer. -/
theorem tcpSender_retry_then_success (g : Given) (config : Config) (s s2 : State)
    (job : PrintMessage) (rest : List PrintMessage) (es : List Event) (env : SinkEnv)
    (now : Int)
    (hbuf : s.buffer = job :: rest)
    (hfail : ∀ env1 now1, Event.senderDefault env1 now1 ∈ es →
      (processMessage g config env1 job).2 ≠ none ∧ now1 - job.Timestamp ≤ (Minute : Int))
    (hok : (processMessage g config env job).2 = none)
    (hrun : run g config s (es ++ [.senderDefault env now]) = some s2) :
    ∃ s1 later, run g config s es = some s1
      ∧ step g config s1 (.senderDefault env now) = some s2
      ∧ s1.buffer = job :: (rest ++ later)
      ∧ s2.buffer = rest ++ later
      ∧ callbacksOf s1.trace = callbacksOf s.trace
      ∧ callbacksOf s2.trace = callbacksOf s.trace ++ [(job.ID, job.Callback, true)]
      ∧ removedOf s2.trace = removedOf s.trace ++ [job] := by
  obtain ⟨s1, hrun1, hstep⟩ := run_snoc g config s s2 es _ hrun
  obtain ⟨later, hl, hc, hr⟩ := run_failing_keeps_head g config job es s s1 rest hbuf hfail hrun1
  obtain ⟨h1, _, _⟩ := step_attempt g config s1 s2 env now job (rest ++ later) hl hstep
  cases hp : processMessage g config env job with
  | mk written err =>
    rw [hp] at hok
    simp only at hok
    subst hok
    obtain ⟨q, _, hs2⟩ := h1 written hp
    refine ⟨s1, later, hrun1, hstep, hl, by rw [hs2], hc, ?_, ?_⟩
    · rw [hs2]; simp only [callbacksOf_append]; rw [hc]; rfl
    · rw [hs2]; simp only [removedOf_append]; rw [hr]; rfl

/-- C3 at job `B`: three refused connections at 1s, 3s and 5s, then a delivery. -/
theorem tcpSender_retry_then_success_witness :
    run sampleGiven tcpConfig holdingB (threeFailures ++ [.senderDefault okEnv 7000000000])
        = some afterRetries
    ∧ ∃ s1 later, run sampleGiven tcpConfig holdingB threeFailures = some s1
      ∧ step sampleGiven tcpConfig s1 (.senderDefault okEnv 7000000000) = some afterRetries
      ∧ s1.buffer = jobB :: ([] ++ later)
      ∧ afterRetries.buffer = [] ++ later
      ∧ callbacksOf s1.trace = callbacksOf holdingB.trace
      ∧ callbacksOf afterRetries.trace
          = callbacksOf holdingB.trace ++ [(jobB.ID, jobB.Callback, true)]
      ∧ removedOf afterRetries.trace = removedOf holdingB.trace ++ [jobB] :=
  ⟨by decide,
   tcpSender_retry_then_success sampleGiven tcpConfig holdingB afterRetries jobB []
     threeFailures okEnv 7000000000 rfl
     (by
       intro env1 now1 hm
       simp only [threeFailures, List.mem_cons, Event.senderDefault.injEq,
         List.mem_singleton, List.not_mem_nil, or_false] at hm
       rcases hm with ⟨rfl, rfl⟩ | ⟨rfl, rfl⟩ | ⟨rfl, rfl⟩ <;> decide)
     (by decide) (by decide)⟩

/-! ## C4 -/

/-- C4: in `tcpSender`, when a delivery attempt for the head job fails: if the
job's age is strictly greater than 60s, `sendCallback` is called exactly once,
for that job and with success = false, and the job is removed from the buffer;
if its age is at most 60s, `sendCallback` is not called, nothing is removed, and
the buffer and the callback queue are left unchanged with the same job at the
head. -/
theorem tcpSender_failed_attempt (g : Given) (config : Config) (s s1 : State)
    (job : PrintMessage) (rest : List PrintMessage) (env : SinkEnv) (now : Int)
    (hbuf : s.buffer = job :: rest)
    (herr : (processMessage g config env job).2 ≠ none)
    (hstep : step g config s (.senderDefault env now) = some s1) :
    (now - job.Timestamp > (Minute : Int) →
      callbacksOf s1.trace = callbacksOf s.trace ++ [(job.ID, job.Callback, false)]
      ∧ removedOf s1.trace = removedOf s.trace ++ [job]
      ∧ s1.buffer = rest)
    ∧ (now - job.Timestamp ≤ (Minute : Int) →
      callbacksOf s1.trace = callbacksOf s.trace
      ∧ removedOf s1.trace = removedOf s.trace
      ∧ s1.buffer = job :: rest
      ∧ s1.callbackQueue = s.callbackQueue) := by
  obtain ⟨_, h2, h3⟩ := step_attempt g config s s1 env now job rest hbuf hstep
  cases hp : processMessage g config env job with
  | mk written err =>
    cases err with
    | none => rw [hp] at herr; exact absurd rfl herr
    | some err =>
      constructor
      · intro hstale
        obtain ⟨q, _, hs1⟩ := h2 written err hp hstale
        rw [hs1]
        exact ⟨by simp [callbacksOf], by simp [removedOf], rfl⟩
      · intro hfresh
        have hs1 := h3 written err hp (by omega)
        rw [hs1]
        exact ⟨by simp [callbacksOf], by simp [removedOf], hbuf, rfl⟩

/-- C4 at job `B` with a connection refused at 61s: the job is dropped. -/
theorem tcpSender_failed_attempt_witness :
    holdingB.buffer = jobB :: []
    ∧ (processMessage sampleGiven tcpConfig downEnv jobB).2 ≠ none
    ∧ step sampleGiven tcpConfig holdingB (.senderDefault downEnv 61000000000)
        = some afterStaleDrop
    ∧ (((61000000000 : Int) - jobB.Timestamp > (Minute : Int) →
        callbacksOf afterStaleDrop.trace
            = callbacksOf holdingB.trace ++ [(jobB.ID, jobB.Callback, false)]
          ∧ removedOf afterStaleDrop.trace = removedOf holdingB.trace ++ [jobB]
          ∧ afterStaleDrop.buffer = [])
      ∧ ((61000000000 : Int) - jobB.Timestamp ≤ (Minute : Int) →
        callbacksOf afterStaleDrop.trace = callbacksOf holdingB.trace
          ∧ removedOf afterStaleDrop.trace = removedOf holdingB.trace
          ∧ afterStaleDrop.buffer = jobB :: []
          ∧ afterStaleDrop.callbackQueue = holdingB.callbackQueue)) :=
  ⟨rfl, by decide, by decide,
   tcpSender_failed_attempt sampleGiven tcpConfig holdingB afterStaleDrop jobB []
     downEnv 61000000000 rfl (by decide) (by decide)⟩

/-- What a step that is not a delivery attempt adds to the history. -/
theorem step_other_trace (g : Given) (config : Config) (s s1 : State) (e : Event)
    (hne : ∀ env now, e ≠ .senderDefault env now) (h : step g config s e = some s1) :
    s1.backoff = s.backoff
    ∧ ((s1.buffer = s.buffer
        ∧ (s1.trace = s.trace ∨ (∃ m, s1.trace = s.trace ++ [.enqueued m])
          ∨ (∃ cb, s1.trace = s.trace ++ [.post cb])))
      ∨ (∃ m, s1.buffer = s.buffer ++ [m] ∧ s1.trace = s.trace ++ [.received m])) := by
  cases e with
  | senderDefault env now => exact absurd rfl (hne env now)
  | mqtt payload now =>
    simp only [step, handleMessage, encodeToCP850] at h
    split at h
    · cases h; exact ⟨rfl, Or.inl ⟨rfl, Or.inl rfl⟩⟩
    · split at h
      · split at h
        · cases h; exact ⟨rfl, Or.inl ⟨rfl, Or.inr (Or.inl ⟨_, rfl⟩)⟩⟩
        · cases h
      · cases h; exact ⟨rfl, Or.inl ⟨rfl, Or.inl rfl⟩⟩
  | cancel =>
    simp only [step] at h
    cases h; exact ⟨rfl, Or.inl ⟨rfl, Or.inl rfl⟩⟩
  | senderDone =>
    simp only [step] at h
    split at h
    · cases h; exact ⟨rfl, Or.inl ⟨rfl, Or.inl rfl⟩⟩
    · cases h
  | senderRecv =>
    simp only [step] at h
    split at h
    · split at h
      · cases h; exact ⟨rfl, Or.inr ⟨_, rfl, rfl⟩⟩
      · cases h
    · cases h
  | notifierDone =>
    simp only [step] at h
    split at h
    · cases h; exact ⟨rfl, Or.inl ⟨rfl, Or.inl rfl⟩⟩
    · cases h
  | notifierRecv =>
    simp only [step] at h
    split at h
    · split at h
      · cases h; exact ⟨rfl, Or.inl ⟨rfl, Or.inr (Or.inr ⟨_, rfl⟩)⟩⟩
      · cases h
    · cases h

/-- What a delivery attempt adds to the history: nothing but an idle sleep on an
empty buffer; otherwise the attempt on the head job, followed either by the
retry sleep (the buffer is kept) or by the callback and the removal of the head. -/
theorem step_default_trace (g : Given) (config : Config) (s s1 : State) (env : SinkEnv)
    (now : Int) (h : step g config s (.senderDefault env now) = some s1) :
    (s.buffer = [] ∧ s1.buffer = [] ∧ s1.backoff = s.backoff
      ∧ s1.trace = s.trace ++ [.idleSleep])
    ∨ (∃ job rest written err, s.buffer = job :: rest ∧ s1.buffer = job :: rest
      ∧ s1.backoff = nextBackoff s.backoff
      ∧ s1.trace = s.trace ++ [.attempt job written (some err), .retrySleep s.backoff])
    ∨ (∃ job rest written err success, s.buffer = job :: rest ∧ s1.buffer = rest
      ∧ (s1.backoff = s.backoff ∨ s1.backoff = Second)
      ∧ s1.trace = s.trace ++ [.attempt job written err,
          .callback job.ID job.Callback success, .removed job]) := by
  cases hb : s.buffer with
  | nil =>
    have hs1 := step_idle g config s s1 env now hb h
    left
    rw [hs1]
    exact ⟨rfl, hb, rfl, rfl⟩
  | cons job rest =>
    right
    obtain ⟨h1, h2, h3⟩ := step_attempt g config s s1 env now job rest hb h
    cases hp : processMessage g config env job with
    | mk written err =>
      cases err with
      | none =>
        obtain ⟨q, _, hs1⟩ := h1 written hp
        right
        refine ⟨job, rest, written, none, true, rfl, ?_, ?_, ?_⟩ <;> rw [hs1]
        exact Or.inr rfl
      | some err =>
        by_cases hstale : now - job.Timestamp > (Minute : Int)
        · obtain ⟨q, _, hs1⟩ := h2 written err hp hstale
          right
          refine ⟨job, rest, written, some err, false, rfl, ?_, ?_, ?_⟩ <;> rw [hs1]
          exact Or.inl rfl
        · have hs1 := h3 written err hp hstale
          left
          refine ⟨job, rest, written, err, rfl, ?_, ?_, ?_⟩ <;> rw [hs1]
          exact hb

/-- The jobs received are the jobs removed followed by the buffer, and every attempt
was made on the head: this holds initially and every step preserves it. -/
theorem headOfLine_step (g : Given) (config : Config) (s : State) (e : Event) (s1 : State)
    (hinv : receivedOf s.trace = removedOf s.trace ++ s.buffer ∧ AttemptsAtHead s.trace)
    (h : step g config s e = some s1) :
    receivedOf s1.trace = removedOf s1.trace ++ s1.buffer ∧ AttemptsAtHead s1.trace := by
  obtain ⟨hrec, hatt⟩ := hinv
  by_cases hd : ∃ env now, e = .senderDefault env now
  · obtain ⟨env, now, rfl⟩ := hd
    rcases step_default_trace g config s s1 env now h with
      ⟨hb, hb1, _, ht⟩ | ⟨job, rest, written, err, hb, hb1, _, ht⟩
        | ⟨job, rest, written, err, success, hb, hb1, _, ht⟩
    · rw [ht, hb1]
      rw [hb] at hrec
      refine ⟨?_, attemptsAtHead_snoc _ _ hatt (fun _ _ _ ho => by cases ho)⟩
      simp only [receivedOf_append, removedOf_append]
      rw [hrec]; simp [receivedOf, removedOf]
    · rw [hb] at hrec
      have hhead : ∃ later, receivedOf s.trace = removedOf s.trace ++ job :: later :=
        ⟨rest, hrec⟩
      have hsplit : s.trace ++ [Obs.attempt job written (some err), Obs.retrySleep s.backoff]
          = (s.trace ++ [Obs.attempt job written (some err)]) ++ [Obs.retrySleep s.backoff] := by
        simp
      rw [ht, hb1]
      constructor
      · simp only [receivedOf_append, removedOf_append]
        rw [hrec]; simp [receivedOf, removedOf]
      · rw [hsplit]
        apply attemptsAtHead_snoc _ _ _ (fun _ _ _ ho => by cases ho)
        apply attemptsAtHead_snoc _ _ hatt
        intro m w er ho
        cases ho
        exact hhead
    · rw [hb] at hrec
      have hhead : ∃ later, receivedOf s.trace = removedOf s.trace ++ job :: later :=
        ⟨rest, hrec⟩
      have hsplit : s.trace ++ [Obs.attempt job written err,
            Obs.callback job.ID job.Callback success, Obs.removed job]
          = ((s.trace ++ [Obs.attempt job written err])
              ++ [Obs.callback job.ID job.Callback success]) ++ [Obs.removed job] := by
        simp
      rw [ht, hb1]
      constructor
      · simp only [receivedOf_append, removedOf_append]
        rw [hrec]; simp [receivedOf, removedOf]
      · rw [hsplit]
        apply attemptsAtHead_snoc _ _ _ (fun _ _ _ ho => by cases ho)
        apply attemptsAtHead_snoc _ _ _ (fun _ _ _ ho => by cases ho)
        apply attemptsAtHead_snoc _ _ hatt
        intro m w er ho
        cases ho
        exact hhead
  · have hne : ∀ env now, e ≠ .senderDefault env now := fun env now he => hd ⟨env, now, he⟩
    rcases (step_other_trace g config s s1 e hne h).2 with
      ⟨hb, ht | ⟨m, ht⟩ | ⟨cb, ht⟩⟩ | ⟨m, hb, ht⟩
    · rw [ht, hb]; exact ⟨hrec, hatt⟩
    · rw [ht, hb]
      refine ⟨?_, attemptsAtHead_snoc _ _ hatt (fun _ _ _ ho => by cases ho)⟩
      simp only [receivedOf_append, removedOf_append]
      rw [hrec]; simp [receivedOf, removedOf]
    · rw [ht, hb]
      refine ⟨?_, attemptsAtHead_snoc _ _ hatt (fun _ _ _ ho => by cases ho)⟩
      simp only [receivedOf_append, removedOf_append]
      rw [hrec]; simp [receivedOf, removedOf]
    · rw [ht, hb]
      refine ⟨?_, attemptsAtHead_snoc _ _ hatt (fun _ _ _ ho => by cases ho)⟩
      simp only [receivedOf_append, removedOf_append]
      rw [hrec]; simp [receivedOf, removedOf]

/-! ## C5 -/

/-- C5 (head-of-line FIFO in `tcpSender`): after every execution of the service,
the jobs removed from the buffer (delivered or dropped) are a prefix of the jobs
received from `messageQueue`, the rest being the buffer in order; and every
delivery attempt in the history was made on the head of the buffer: when an
attempt on `m` starts, every job received before `m` has already been removed. -/
theorem tcpSender_head_of_line (g : Given) (config : Config) (es : List Event) (s : State)
    (hrun : run g config NewPrinterService es = some s) :
    receivedOf s.trace = removedOf s.trace ++ s.buffer
    ∧ ∀ pre m written err post, s.trace = pre ++ Obs.attempt m written err :: post →
        ∃ later, receivedOf pre = removedOf pre ++ m :: later := by
  have h := run_invariant g config
    (fun s => receivedOf s.trace = removedOf s.trace ++ s.buffer ∧ AttemptsAtHead s.trace)
    (fun s e s1 hinv hstep => headOfLine_step g config s e s1 hinv hstep)
    NewPrinterService es s
    ⟨rfl, fun pre m written err post heq => by
      simp [NewPrinterService] at heq⟩
    hrun
  exact h

/-- C5 at the execution `twoJobs`. -/
theorem tcpSender_head_of_line_witness :
    run sampleGiven tcpConfig NewPrinterService twoJobs = some afterTwoJobs
    ∧ (receivedOf afterTwoJobs.trace = removedOf afterTwoJobs.trace ++ afterTwoJobs.buffer
      ∧ ∀ pre m written err post,
          afterTwoJobs.trace = pre ++ Obs.attempt m written err :: post →
          ∃ later, receivedOf pre = removedOf pre ++ m :: later) :=
  ⟨by decide, tcpSender_head_of_line sampleGiven tcpConfig twoJobs afterTwoJobs (by decide)⟩

/-- Appending a record that is neither a retry sleep nor a removal keeps the three
properties of the delays. -/
theorem delays_snoc_neutral (tr : List Obs) (o : Obs) (bo : Nat)
    (hns : ∀ d, o ≠ .retrySleep d)
    (h : DelaysOrdered tr ∧ DelaysBounded tr ∧ DelaysBelow tr bo) :
    DelaysOrdered (tr ++ [o]) ∧ DelaysBounded (tr ++ [o]) ∧ DelaysBelow (tr ++ [o]) bo :=
  ⟨delaysOrdered_snoc tr o bo h.1 h.2.2 (fun d hd => absurd hd (hns d)),
   delaysBounded_snoc tr o h.2.1 (fun d hd => absurd hd (hns d)),
   delaysBelow_snoc tr o bo bo h.2.2 (le_refl bo) (fun d hd => absurd hd (hns d))⟩

theorem backoffInv_step (g : Given) (config : Config) (s : State) (e : Event) (s1 : State)
    (hinv : BackoffInv s) (h : step g config s e = some s1) : BackoffInv s1 := by
  obtain ⟨hlo, hhi, hord, hbd, hbl⟩ := hinv
  by_cases hd : ∃ env now, e = .senderDefault env now
  · obtain ⟨env, now, rfl⟩ := hd
    rcases step_default_trace g config s s1 env now h with
      ⟨_, _, hbo, ht⟩ | ⟨job, rest, written, err, _, _, hbo, ht⟩
        | ⟨job, rest, written, err, success, _, _, hbo, ht⟩
    · unfold BackoffInv
      rw [ht, hbo]
      exact ⟨hlo, hhi, delays_snoc_neutral _ _ _ (fun _ ho => by cases ho) ⟨hord, hbd, hbl⟩⟩
    · have hsplit : s.trace ++ [Obs.attempt job written (some err), Obs.retrySleep s.backoff]
          = (s.trace ++ [Obs.attempt job written (some err)]) ++ [Obs.retrySleep s.backoff] := by
        simp
      obtain ⟨ho1, hb1, hl1⟩ := delays_snoc_neutral s.trace
        (Obs.attempt job written (some err)) s.backoff (fun _ ho => by cases ho)
        ⟨hord, hbd, hbl⟩
      have hnb := nextBackoff_bounds s.backoff hlo
      have hle := le_nextBackoff s.backoff hhi
      unfold BackoffInv
      rw [ht, hbo, hsplit]
      refine ⟨hnb.1, hnb.2, ?_, ?_, ?_⟩
      · exact delaysOrdered_snoc _ _ s.backoff ho1 hl1 (fun d hd => by cases hd; exact le_refl _)
      · exact delaysBounded_snoc _ _ hb1 (fun d hd => by cases hd; exact ⟨hlo, hhi⟩)
      · exact delaysBelow_snoc _ _ s.backoff _ hl1 hle (fun d hd => by cases hd; exact hle)
    · have hsplit : s.trace ++ [Obs.attempt job written err,
            Obs.callback job.ID job.Callback success, Obs.removed job]
          = ((s.trace ++ [Obs.attempt job written err])
              ++ [Obs.callback job.ID job.Callback success]) ++ [Obs.removed job] := by
        simp
      obtain ⟨ho1, hb1, hl1⟩ := delays_snoc_neutral s.trace
        (Obs.attempt job written err) s.backoff (fun _ ho => by cases ho) ⟨hord, hbd, hbl⟩
      obtain ⟨ho2, hb2, hl2⟩ := delays_snoc_neutral _
        (Obs.callback job.ID job.Callback success) s.backoff (fun _ ho => by cases ho)
        ⟨ho1, hb1, hl1⟩
      have hbounds : Second ≤ s1.backoff ∧ s1.backoff ≤ 30 * Second := by
        rcases hbo with hbo | hbo <;> rw [hbo]
        · exact ⟨hlo, hhi⟩
        · exact ⟨le_refl _, by omega⟩
      unfold BackoffInv
      rw [ht, hsplit]
      refine ⟨hbounds.1, hbounds.2, ?_, ?_, ?_⟩
      · exact delaysOrdered_snoc _ _ s.backoff ho2 hl2 (fun d hd => by cases hd)
      · exact delaysBounded_snoc _ _ hb2 (fun d hd => by cases hd)
      · exact delaysBelow_removed _ _ _
  · have hne : ∀ env now, e ≠ .senderDefault env now := fun env now he => hd ⟨env, now, he⟩
    obtain ⟨hbo, hcases⟩ := step_other_trace g config s s1 e hne h
    unfold BackoffInv
    rw [hbo]
    rcases hcases with ⟨_, ht | ⟨m, ht⟩ | ⟨cb, ht⟩⟩ | ⟨m, _, ht⟩ <;> rw [ht]
    · exact ⟨hlo, hhi, hord, hbd, hbl⟩
    · exact ⟨hlo, hhi, delays_snoc_neutral _ _ _ (fun _ ho => by cases ho) ⟨hord, hbd, hbl⟩⟩
    · exact ⟨hlo, hhi, delays_snoc_neutral _ _ _ (fun _ ho => by cases ho) ⟨hord, hbd, hbl⟩⟩
    · exact ⟨hlo, hhi, delays_snoc_neutral _ _ _ (fun _ ho => by cases ho) ⟨hord, hbd, hbl⟩⟩

theorem backoffInv_init : BackoffInv NewPrinterService := by
  refine ⟨le_refl _, by decide, ?_, ?_, ?_⟩
  · intro pre d1 mid d2 post heq
    simp [NewPrinterService] at heq
  · intro d hd
    simp [NewPrinterService] at hd
  · intro pre d mid heq
    simp [NewPrinterService] at heq

/-! ## C6 -/

/-- C6 (backoff in `tcpSender`): the backoff starts at 1s; in every state an
execution reaches, a failed attempt on a job that is not stale sleeps the current
backoff and replaces it by min(backoff x 3 / 2 rounded down, 30s), and a
successful delivery sets it to 1s; in the history of every execution, two retry
sleeps with no removal of a job between them (retries of the same job) are in
non-decreasing order, and every retry sleep lasts at least 1s and at most 30s. -/
theorem tcpSender_backoff (g : Given) (config : Config) (es : List Event) (s : State)
    (hrun : run g config NewPrinterService es = some s) :
    NewPrinterService.backoff = Second
    ∧ (∀ env now s1 job rest, s.buffer = job :: rest →
        step g config s (.senderDefault env now) = some s1 →
        ((processMessage g config env job).2 ≠ none →
          now - job.Timestamp ≤ (Minute : Int) →
          (∃ written err, s1.trace
              = s.trace ++ [.attempt job written (some err), .retrySleep s.backoff])
            ∧ s1.backoff = min (s.backoff * 3 / 2) (30 * Second))
        ∧ ((processMessage g config env job).2 = none → s1.backoff = Second))
    ∧ (∀ pre d1 mid d2 post,
        s.trace = pre ++ Obs.retrySleep d1 :: (mid ++ Obs.retrySleep d2 :: post) →
        (∀ m, Obs.removed m ∉ mid) → d1 ≤ d2)
    ∧ (∀ d, Obs.retrySleep d ∈ s.trace → Second ≤ d ∧ d ≤ 30 * Second) := by
  have hinv : BackoffInv s :=
    run_invariant g config BackoffInv
      (fun s e s1 hi hs => backoffInv_step g config s e s1 hi hs)
      NewPrinterService es s backoffInv_init hrun
  refine ⟨rfl, ?_, hinv.2.2.1, hinv.2.2.2.1⟩
  intro env now s1 job rest hbuf hstep
  obtain ⟨h1, _, h3⟩ := step_attempt g config s s1 env now job rest hbuf hstep
  cases hp : processMessage g config env job with
  | mk written err =>
    cases err with
    | none =>
      obtain ⟨q, _, hs1⟩ := h1 written hp
      exact ⟨fun hne => absurd rfl hne, fun _ => by rw [hs1]⟩
    | some err =>
      refine ⟨fun _ hfresh => ?_, fun hnone => by cases hnone⟩
      have hs1 := h3 written err hp (by omega)
      rw [hs1]
      exact ⟨⟨written, err, rfl⟩, nextBackoff_eq_min _⟩

/-- C6 at the execution `retriedJob`. -/
theorem tcpSender_backoff_witness :
    run sampleGiven tcpConfig NewPrinterService retriedJob = some afterRetriedJob
    ∧ (NewPrinterService.backoff = Second
      ∧ (∀ env now s1 job rest, afterRetriedJob.buffer = job :: rest →
          step sampleGiven tcpConfig afterRetriedJob (.senderDefault env now) = some s1 →
          ((processMessage sampleGiven tcpConfig env job).2 ≠ none →
            now - job.Timestamp ≤ (Minute : Int) →
            (∃ written err, s1.trace
                = afterRetriedJob.trace
                  ++ [.attempt job written (some err), .retrySleep afterRetriedJob.backoff])
              ∧ s1.backoff = min (afterRetriedJob.backoff * 3 / 2) (30 * Second))
          ∧ ((processMessage sampleGiven tcpConfig env job).2 = none → s1.backoff = Second))
      ∧ (∀ pre d1 mid d2 post,
          afterRetriedJob.trace
            = pre ++ Obs.retrySleep d1 :: (mid ++ Obs.retrySleep d2 :: post) →
          (∀ m, Obs.removed m ∉ mid) → d1 ≤ d2)
      ∧ (∀ d, Obs.retrySleep d ∈ afterRetriedJob.trace → Second ≤ d ∧ d ≤ 30 * Second)) :=
  ⟨by decide,
   tcpSender_backoff sampleGiven tcpConfig retriedJob afterRetriedJob (by decide)⟩

/-! ## C7 -/

theorem htmlSafeSet_of_isAlnum (b : Nat) (h : isAlnum b) : b < 0x80 ∧ htmlSafeSet b = true := by
  unfold isAlnum at h
  unfold htmlSafeSet
  refine ⟨by omega, ?_⟩
  simp only [decide_eq_true_eq]
  omega

/-- A string of alphanumeric bytes needs no escaping. -/
theorem appendStringLoop_of_isAlnum (src : Bytes) (h : ∀ b ∈ src, isAlnum b) :
    ∀ fuel, src.length ≤ fuel → appendStringLoop fuel src = src := by
  induction src with
  | nil =>
    intro fuel _
    cases fuel <;> rfl
  | cons b rest ih =>
    intro fuel hfuel
    cases fuel with
    | zero => simp at hfuel
    | succ fuel =>
      obtain ⟨hlt, hsafe⟩ := htmlSafeSet_of_isAlnum b (h b (List.mem_cons_self _ _))
      have hrest := ih (fun c hc => h c (List.mem_cons_of_mem _ hc)) fuel
        (by simpa using hfuel)
      simp only [appendStringLoop, hlt, if_true, hsafe, hrest]
      rfl

theorem appendString_of_isAlnum (src : Bytes) (h : ∀ b ∈ src, isAlnum b) :
    appendString src = [0x22] ++ src ++ [0x22] := by
  unfold appendString
  rw [appendStringLoop_of_isAlnum src h src.length (le_refl _)]

/-- C7 (as stated, fails on the code): for id `B`, success = true and callback
`http://x/cb`, the item `sendCallback` enqueues does not carry the text
`{"success":"true","id":"B"}`; `json.Marshal` writes the members of a map in
key order, so the text is `{"id":"B","success":"true"}`. -/
theorem sendCallback_body_order_counterexample :
    sendCallback (Chan.make 100) (ascii "B") (ascii "http://x/cb") true
      ≠ some { cap := 100,
               buf := [{ URL := ascii "http://x/cb",
                         Data := ascii "\x7b\"success\":\"true\",\"id\":\"B\"\x7d" }] }
    ∧ sendCallback (Chan.make 100) (ascii "B") (ascii "http://x/cb") true
      = some { cap := 100,
               buf := [{ URL := ascii "http://x/cb",
                         Data := ascii "\x7b\"id\":\"B\",\"success\":\"true\"\x7d" }] } := by
  decide

/-- C7 (amended): for every job id made of plain alphanumeric characters, every
success flag and every non-empty callback URL, `sendCallback` on a callback queue
that is not full enqueues exactly one `CallbackData` whose URL is the given
callback URL and whose Data is exactly the text
`{"id":"<id>","success":"<true|false>"}`: the id member first, the success member
second, both values JSON strings. -/
theorem sendCallback_enqueues_body (q : Chan CallbackData) (id url : Bytes) (success : Bool)
    (hid : ∀ b ∈ id, isAlnum b) (hurl : url ≠ []) (hroom : q.buf.length < q.cap) :
    sendCallback q id url success
      = some { q with
          buf := q.buf ++
            [{ URL := url,
               Data := ascii "\x7b\"id\":\"" ++ id ++ ascii "\",\"success\":\""
                 ++ FormatBool success ++ ascii "\"\x7d" }] } := by
  have hsorted : sortByKey [(ascii "success", FormatBool success), (ascii "id", id)]
      = [(ascii "id", id), (ascii "success", FormatBool success)] := by
    simp only [sortByKey, List.foldr, insertByKey]
    rfl
  have hfmt : appendString (FormatBool success) = [0x22] ++ FormatBool success ++ [0x22] := by
    cases success <;> decide
  have hk1 : appendString (ascii "id") = ascii "\"id\"" := by decide
  have hk2 : appendString (ascii "success") = ascii "\"success\"" := by decide
  simp only [sendCallback, hurl, if_false, Chan.send, hroom, if_true, Marshal, hsorted,
    encodeMembers, hfmt, hk1, hk2, appendString_of_isAlnum id hid]
  have e1 : ascii "\"id\"" = [0x22, 0x69, 0x64, 0x22] := by decide
  have e2 : ascii "\"success\"" = [0x22, 0x73, 0x75, 0x63, 0x63, 0x65, 0x73, 0x73, 0x22] := by
    decide
  have e3 : ascii "\x7b\"id\":\"" = [0x7B, 0x22, 0x69, 0x64, 0x22, 0x3A, 0x22] := by decide
  have e4 : ascii "\",\"success\":\""
      = [0x22, 0x2C, 0x22, 0x73, 0x75, 0x63, 0x63, 0x65, 0x73, 0x73, 0x22, 0x3A, 0x22] := by
    decide
  have e5 : ascii "\"\x7d" = [0x22, 0x7D] := by decide
  rw [e1, e2, e3, e4, e5]
  simp

/-- C7 (amended) at id `B`, success = true, callback `http://x/cb`, empty queue. -/
theorem sendCallback_enqueues_body_witness :
    (∀ b ∈ ascii "B", isAlnum b) ∧ ascii "http://x/cb" ≠ []
    ∧ (Chan.make 100 : Chan CallbackData).buf.length < (Chan.make 100 : Chan CallbackData).cap
    ∧ sendCallback (Chan.make 100) (ascii "B") (ascii "http://x/cb") true
      = some { (Chan.make 100 : Chan CallbackData) with
          buf := (Chan.make 100 : Chan CallbackData).buf ++
            [{ URL := ascii "http://x/cb",
               Data := ascii "\x7b\"id\":\"" ++ ascii "B" ++ ascii "\",\"success\":\""
                 ++ FormatBool true ++ ascii "\"\x7d" }] } :=
  ⟨by intro b hb; simp [ascii] at hb; subst hb; unfold isAlnum; decide,
   by decide, by decide,
   sendCallback_enqueues_body (Chan.make 100) (ascii "B") (ascii "http://x/cb") true
     (by intro b hb; simp [ascii] at hb; subst hb; unfold isAlnum; decide)
     (by decide) (by decide)⟩

/-! ## C8 -/

/-- What a completed call of `sendCallback` does to the callback queue. -/
theorem sendCallback_cases (q q1 : Chan CallbackData) (id url : Bytes) (success : Bool)
    (h : sendCallback q id url success = some q1) :
    (url = [] ∧ q1 = q)
    ∨ (url ≠ [] ∧ ∃ data, q1.buf = q.buf ++ [{ URL := url, Data := data }]) := by
  unfold sendCallback at h
  by_cases hu : url = []
  · left
    simp only [hu, if_true, Option.some.injEq] at h
    exact ⟨hu, h.symm⟩
  · right
    simp only [hu, if_false, Chan.send] at h
    split at h
    · cases h; exact ⟨hu, _, rfl⟩
    · cases h

/-- What one step does to the callback queue and to the posts: nothing, or
`callbackSender` takes the oldest item and posts it, or `tcpSender` enqueues an
item with a non-empty URL. -/
theorem step_callbackQueue (g : Given) (config : Config) (s s1 : State) (e : Event)
    (h : step g config s e = some s1) :
    (s1.callbackQueue = s.callbackQueue ∧ postsOf s1.trace = postsOf s.trace)
    ∨ (∃ cb, s.callbackQueue.buf = cb :: s1.callbackQueue.buf
        ∧ postsOf s1.trace = postsOf s.trace ++ [cb])
    ∨ (∃ cb, cb.URL ≠ [] ∧ s1.callbackQueue.buf = s.callbackQueue.buf ++ [cb]
        ∧ postsOf s1.trace = postsOf s.trace) := by
  cases e with
  | senderDefault env now =>
    cases hb : s.buffer with
    | nil =>
      have hs1 := step_idle g config s s1 env now hb h
      left
      rw [hs1]
      exact ⟨rfl, by simp [postsOf]⟩
    | cons job rest =>
      obtain ⟨h1, h2, h3⟩ := step_attempt g config s s1 env now job rest hb h
      have key : ∀ (q : Chan CallbackData) (success : Bool) (tr : List Obs),
          sendCallback s.callbackQueue job.ID job.Callback success = some q →
          s1.callbackQueue = q → postsOf s1.trace = postsOf s.trace →
          (s1.callbackQueue = s.callbackQueue ∧ postsOf s1.trace = postsOf s.trace)
          ∨ (∃ cb, s.callbackQueue.buf = cb :: s1.callbackQueue.buf
              ∧ postsOf s1.trace = postsOf s.trace ++ [cb])
          ∨ (∃ cb, cb.URL ≠ [] ∧ s1.callbackQueue.buf = s.callbackQueue.buf ++ [cb]
              ∧ postsOf s1.trace = postsOf s.trace) := by
        intro q success _ hq hcq hposts
        rcases sendCallback_cases _ _ _ _ _ hq with ⟨_, hq1⟩ | ⟨hu, data, hq1⟩
        · left; exact ⟨by rw [hcq, hq1], hposts⟩
        · right; right
          exact ⟨_, hu, by rw [hcq, hq1], hposts⟩
      cases hp : processMessage g config env job with
      | mk written err =>
        cases err with
        | none =>
          obtain ⟨q, hq, hs1⟩ := h1 written hp
          exact key q true [] hq (by rw [hs1]) (by rw [hs1]; simp [postsOf])
        | some err =>
          by_cases hstale : now - job.Timestamp > (Minute : Int)
          · obtain ⟨q, hq, hs1⟩ := h2 written err hp hstale
            exact key q false [] hq (by rw [hs1]) (by rw [hs1]; simp [postsOf])
          · have hs1 := h3 written err hp hstale
            left
            rw [hs1]
            exact ⟨rfl, by simp [postsOf]⟩
  | mqtt payload now =>
    left
    simp only [step, handleMessage, encodeToCP850] at h
    split at h
    · cases h; exact ⟨rfl, rfl⟩
    · split at h
      · split at h
        · cases h; exact ⟨rfl, by simp [postsOf]⟩
        · cases h
      · cases h; exact ⟨rfl, rfl⟩
  | cancel =>
    left
    simp only [step] at h
    cases h; exact ⟨rfl, rfl⟩
  | senderDone =>
    left
    simp only [step] at h
    split at h
    · cases h; exact ⟨rfl, rfl⟩
    · cases h
  | senderRecv =>
    left
    simp only [step] at h
    split at h
    · split at h
      · cases h; exact ⟨rfl, by simp [postsOf]⟩
      · cases h
    · cases h
  | notifierDone =>
    left
    simp only [step] at h
    split at h
    · cases h; exact ⟨rfl, rfl⟩
    · cases h
  | notifierRecv =>
    right; left
    simp only [step, Chan.recv] at h
    split at h
    · split at h
      · rename_i cb q hrecv
        split at hrecv
        · cases hrecv
        · rename_i hbuf
          cases hrecv
          cases h
          exact ⟨_, hbuf, by simp [postsOf]⟩
      · cases h
    · cases h

theorem callbackURLsSet_step (g : Given) (config : Config) (s : State) (e : Event)
    (s1 : State) (hinv : CallbackURLsSet s) (h : step g config s e = some s1) :
    CallbackURLsSet s1 := by
  obtain ⟨hq, hp⟩ := hinv
  rcases step_callbackQueue g config s s1 e h with
    ⟨hcq, hposts⟩ | ⟨cb, hcq, hposts⟩ | ⟨cb, hu, hcq, hposts⟩
  · exact ⟨by rw [hcq]; exact hq, by rw [hposts]; exact hp⟩
  · constructor
    · intro c hc
      exact hq c (by rw [hcq]; exact List.mem_cons_of_mem _ hc)
    · intro c hc
      rw [hposts] at hc
      rcases List.mem_append.mp hc with hc | hc
      · exact hp c hc
      · have : c = cb := by simpa using hc
        rw [this]
        exact hq cb (by rw [hcq]; exact List.mem_cons_self _ _)
  · constructor
    · intro c hc
      rw [hcq] at hc
      rcases List.mem_append.mp hc with hc | hc
      · exact hq c hc
      · have : c = cb := by simpa using hc
        rw [this]; exact hu
    · rw [hposts]; exact hp

/-- C8: `sendCallback` called with an empty callback URL enqueues nothing and
leaves the callback queue unchanged, whatever the job id and the success flag;
hence a step of `tcpSender` that resolves a job with an empty callback (delivered
or dropped as stale) leaves the callback queue unchanged, and in every execution
every item waiting in the callback queue and every item posted by
`callbackSender` carries a non-empty URL. -/
theorem sendCallback_empty_url (g : Given) (config : Config) (es : List Event) (s : State)
    (hrun : run g config NewPrinterService es = some s) :
    (∀ (q : Chan CallbackData) (id : Bytes) (success : Bool),
      sendCallback q id [] success = some q)
    ∧ (∀ env now s1 job rest, s.buffer = job :: rest → job.Callback = [] →
        step g config s (.senderDefault env now) = some s1 →
        s1.callbackQueue = s.callbackQueue ∧ postsOf s1.trace = postsOf s.trace)
    ∧ (∀ cb ∈ s.callbackQueue.buf, cb.URL ≠ [])
    ∧ (∀ cb ∈ postsOf s.trace, cb.URL ≠ []) := by
  have hinv : CallbackURLsSet s :=
    run_invariant g config CallbackURLsSet
      (fun s e s1 hi hs => callbackURLsSet_step g config s e s1 hi hs)
      NewPrinterService es s
      ⟨by intro cb hcb; simp [NewPrinterService, Chan.make] at hcb,
       by intro cb hcb; simp [NewPrinterService, postsOf] at hcb⟩
      hrun
  refine ⟨fun q id success => by simp [sendCallback], ?_, hinv.1, hinv.2⟩
  intro env now s1 job rest hbuf hcb hstep
  obtain ⟨h1, h2, h3⟩ := step_attempt g config s s1 env now job rest hbuf hstep
  have hsend : ∀ success, sendCallback s.callbackQueue job.ID job.Callback success
      = some s.callbackQueue := by
    intro success
    rw [hcb]; simp [sendCallback]
  cases hp : processMessage g config env job with
  | mk written err =>
    cases err with
    | none =>
      obtain ⟨q, hq, hs1⟩ := h1 written hp
      rw [hsend true] at hq
      cases hq
      rw [hs1]
      exact ⟨rfl, by simp [postsOf]⟩
    | some err =>
      by_cases hstale : now - job.Timestamp > (Minute : Int)
      · obtain ⟨q, hq, hs1⟩ := h2 written err hp hstale
        rw [hsend false] at hq
        cases hq
        rw [hs1]
        exact ⟨rfl, by simp [postsOf]⟩
      · have hs1 := h3 written err hp hstale
        rw [hs1]
        exact ⟨rfl, by simp [postsOf]⟩

/-- C8 at the execution `oneReceived`, after which a job without callback is at
the head of the buffer. -/
theorem sendCallback_empty_url_witness :
    run sampleGiven tcpConfig NewPrinterService oneReceived = some afterOneReceived
    ∧ ((∀ (q : Chan CallbackData) (id : Bytes) (success : Bool),
        sendCallback q id [] success = some q)
      ∧ (∀ env now s1 job rest, afterOneReceived.buffer = job :: rest → job.Callback = [] →
          step sampleGiven tcpConfig afterOneReceived (.senderDefault env now) = some s1 →
          s1.callbackQueue = afterOneReceived.callbackQueue
            ∧ postsOf s1.trace = postsOf afterOneReceived.trace)
      ∧ (∀ cb ∈ afterOneReceived.callbackQueue.buf, cb.URL ≠ [])
      ∧ (∀ cb ∈ postsOf afterOneReceived.trace, cb.URL ≠ [])) :=
  ⟨by decide,
   sendCallback_empty_url sampleGiven tcpConfig oneReceived afterOneReceived (by decide)⟩

/-- Method `handleMessage` in closed form. -/
theorem handleMessage_eq (g : Given) (s : State) (payload : Bytes) (now : Int) :
    handleMessage g s payload now =
      match g.jsonUnmarshal payload with
      | none => some s
      | some parsed =>
        match g.cp850 ((g.base64Decode parsed.Message).getD parsed.Message) with
        | none => some s
        | some enc =>
          match s.messageQueue.send
              { ID := parsed.ID, Message := enc, Callback := parsed.Callback,
                Cut := parsed.Cut, Timestamp := now } with
          | some q =>
            some { s with
              messageQueue := q
              trace := s.trace ++ [.enqueued
                { ID := parsed.ID, Message := enc, Callback := parsed.Callback,
                  Cut := parsed.Cut, Timestamp := now }] }
          | none => none := by
  unfold handleMessage encodeToCP850
  cases g.jsonUnmarshal payload with
  | none => rfl
  | some parsed =>
    rcases parsed with ⟨id, msg, cb, cut, ts⟩
    simp only
    cases g.base64Decode msg with
    | none =>
      simp only [Option.getD_none]
      cases g.cp850 msg <;> rfl
    | some dec =>
      simp only [Option.getD_some]
      cases g.cp850 dec <;> rfl

/-! ## C9 -/

/-- C9: `handleMessage`, with JSON parsing, base64 decoding and CP850 encoding
taken as given functions and room in `messageQueue`, returns; a payload that
fails JSON parsing leaves the state unchanged; for a payload that parses, with
`m1` the base64 decoding of the message field when that succeeds and the
message field otherwise, a job is appended to `messageQueue` if and only if the
CP850 encoding of `m1` succeeds; in that case exactly one job is appended, its
Message is the CP850 encoding of `m1` and its ID, Callback and Cut are those of
the payload; when the encoding fails the state is unchanged. -/
theorem handleMessage_pushes_iff_encodable (g : Given) (s : State) (payload : Bytes)
    (now : Int) (hroom : s.messageQueue.buf.length < s.messageQueue.cap) :
    ∃ s1, handleMessage g s payload now = some s1
      ∧ (g.jsonUnmarshal payload = none → s1 = s)
      ∧ (∀ parsed, g.jsonUnmarshal payload = some parsed →
          ((∃ job, s1.messageQueue.buf = s.messageQueue.buf ++ [job])
            ↔ (g.cp850 ((g.base64Decode parsed.Message).getD parsed.Message)).isSome)
          ∧ (∀ enc, g.cp850 ((g.base64Decode parsed.Message).getD parsed.Message) = some enc →
              s1.messageQueue.buf = s.messageQueue.buf ++
                [{ ID := parsed.ID, Message := enc, Callback := parsed.Callback,
                   Cut := parsed.Cut, Timestamp := now }])
          ∧ (g.cp850 ((g.base64Decode parsed.Message).getD parsed.Message) = none →
              s1 = s)) := by
  rw [handleMessage_eq]
  cases hj : g.jsonUnmarshal payload with
  | none => exact ⟨s, rfl, fun _ => rfl, fun parsed hp => by cases hp⟩
  | some parsed =>
    cases hc : g.cp850 ((g.base64Decode parsed.Message).getD parsed.Message) with
    | none =>
      refine ⟨s, by simp only [hc], (fun h => by cases h), ?_⟩
      intro p hp
      cases hp
      rw [hc]
      refine ⟨⟨fun ⟨job, hjob⟩ => ?_, fun h => by cases h⟩, (fun enc h => by cases h),
        fun _ => rfl⟩
      have := congrArg List.length hjob
      simp at this
    | some enc =>
      refine ⟨_, by simp only [hc, Chan.send, hroom, if_true]; rfl, (fun h => by cases h), ?_⟩
      intro p hp
      cases hp
      rw [hc]
      exact ⟨⟨fun _ => rfl, fun _ => ⟨_, rfl⟩⟩, (fun e he => by cases he; rfl),
        fun h => by cases h⟩

/-- C9 at the specification's scenario on the freshly started service. -/
theorem handleMessage_pushes_iff_encodable_witness :
    NewPrinterService.messageQueue.buf.length < NewPrinterService.messageQueue.cap
    ∧ ∃ s1, handleMessage scenarioGiven NewPrinterService (ascii "payload") 5 = some s1
      ∧ (scenarioGiven.jsonUnmarshal (ascii "payload") = none → s1 = NewPrinterService)
      ∧ (∀ parsed, scenarioGiven.jsonUnmarshal (ascii "payload") = some parsed →
          ((∃ job, s1.messageQueue.buf = NewPrinterService.messageQueue.buf ++ [job])
            ↔ (scenarioGiven.cp850
                ((scenarioGiven.base64Decode parsed.Message).getD parsed.Message)).isSome)
          ∧ (∀ enc, scenarioGiven.cp850
                ((scenarioGiven.base64Decode parsed.Message).getD parsed.Message) = some enc →
              s1.messageQueue.buf = NewPrinterService.messageQueue.buf ++
                [{ ID := parsed.ID, Message := enc, Callback := parsed.Callback,
                   Cut := parsed.Cut, Timestamp := 5 }])
          ∧ (scenarioGiven.cp850
                ((scenarioGiven.base64Decode parsed.Message).getD parsed.Message) = none →
              s1 = NewPrinterService)) :=
  ⟨by decide,
   handleMessage_pushes_iff_encodable scenarioGiven NewPrinterService (ascii "payload") 5
     (by decide)⟩

/-! ## C10 -/

/-- One round of `burst` on a service whose `messageQueue` is empty: the job goes
through the queue into the buffer, and no job is removed. -/
theorem run_round (s : State) (hq : s.messageQueue.buf = []) (hcap : 0 < s.messageQueue.cap)
    (hrun : s.senderRunning = true) :
    ∃ s1, run sampleGiven tcpConfig s [Event.mqtt [] 0, Event.senderRecv] = some s1
      ∧ s1.messageQueue = s.messageQueue ∧ s1.senderRunning = true
      ∧ s1.buffer.length = s.buffer.length + 1
      ∧ removedOf s1.trace = removedOf s.trace := by
  rcases s with ⟨⟨cap, mbuf⟩, cq, cn, buf, bo, sr, nr, tr⟩
  simp only at hq hcap hrun
  subst hq
  subst hrun
  refine ⟨{ messageQueue := { cap := cap, buf := [] }, callbackQueue := cq, cancelled := cn,
            buffer := buf ++ [{ ID := [], Message := [], Callback := [], Cut := ascii "false",
                                Timestamp := 0 }],
            backoff := bo, senderRunning := true, notifierRunning := nr,
            trace := tr ++ [Obs.enqueued { ID := [], Message := [], Callback := [],
                                            Cut := ascii "false", Timestamp := 0 }]
                        ++ [Obs.received { ID := [], Message := [], Callback := [],
                                            Cut := ascii "false", Timestamp := 0 }] },
          ?_, rfl, rfl, ?_, ?_⟩
  · simp only [run, step, handleMessage_eq, sampleGiven, Chan.send, List.length_nil, hcap,
      if_true, Chan.recv, List.nil_append]
    rfl
  · simp
  · simp [removedOf]

theorem run_rounds (n : Nat) :
    ∀ s : State, s.messageQueue.buf = [] → 0 < s.messageQueue.cap → s.senderRunning = true →
      ∃ s1, run sampleGiven tcpConfig s
          (List.replicate n [Event.mqtt [] 0, Event.senderRecv]).flatten = some s1
        ∧ s1.messageQueue = s.messageQueue
        ∧ s1.buffer.length = s.buffer.length + n
        ∧ removedOf s1.trace = removedOf s.trace := by
  induction n with
  | zero =>
    intro s _ _ _
    exact ⟨s, rfl, rfl, rfl, rfl⟩
  | succ n ih =>
    intro s hq hcap hrun
    obtain ⟨s1, h1, hq1, hr1, hl1, hrm1⟩ := run_round s hq hcap hrun
    obtain ⟨s2, h2, hq2, hl2, hrm2⟩ :=
      ih s1 (by rw [hq1]; exact hq) (by rw [hq1]; exact hcap) hr1
    refine ⟨s2, ?_, by rw [hq2, hq1], by rw [hl2, hl1]; omega, by rw [hrm2, hrm1]⟩
    rw [List.replicate_succ, List.flatten_cons, run_append, h1]
    exact h2

/-- C10 (as stated, fails on the code): in the execution `burst`, in which 101
messages arrive and `tcpSender` receives each of them before the next arrives,
`messageQueue` is empty at the end and the buffer of `tcpSender` holds 101 jobs,
none of them resolved: more than the capacity of 100. -/
theorem pending_jobs_exceed_capacity :
    run sampleGiven tcpConfig NewPrinterService burst = some afterBurst
    ∧ removedOf afterBurst.trace = []
    ∧ afterBurst.messageQueue.buf.length + afterBurst.buffer.length = 101
    ∧ ¬ (∀ (g : Given) (config : Config) (es : List Event) (s : State),
          run g config NewPrinterService es = some s →
          s.messageQueue.buf.length + s.buffer.length ≤ 100) := by
  obtain ⟨s, hrun, hq, hlen, hrm⟩ := run_rounds 101 NewPrinterService rfl (by decide) rfl
  have hs : afterBurst = s := by
    unfold afterBurst burst
    rw [hrun]
    rfl
  have htotal : s.messageQueue.buf.length + s.buffer.length = 101 := by
    rw [hq, hlen]; rfl
  refine ⟨by rw [hs]; exact hrun, by rw [hs, hrm]; rfl, by rw [hs]; exact htotal, ?_⟩
  intro hall
  have := hall sampleGiven tcpConfig _ s hrun
  omega

theorem queueBounded_step (g : Given) (config : Config) (s : State) (e : Event) (s1 : State)
    (hinv : QueueBounded s) (h : step g config s e = some s1) : QueueBounded s1 := by
  obtain ⟨hcap, hlen⟩ := hinv
  cases e with
  | senderDefault env now =>
    cases hb : s.buffer with
    | nil =>
      rw [step_idle g config s s1 env now hb h]
      exact ⟨hcap, hlen⟩
    | cons job rest =>
      obtain ⟨h1, h2, h3⟩ := step_attempt g config s s1 env now job rest hb h
      cases hp : processMessage g config env job with
      | mk written err =>
        cases err with
        | none =>
          obtain ⟨q, _, hs1⟩ := h1 written hp
          rw [hs1]; exact ⟨hcap, hlen⟩
        | some err =>
          by_cases hstale : now - job.Timestamp > (Minute : Int)
          · obtain ⟨q, _, hs1⟩ := h2 written err hp hstale
            rw [hs1]; exact ⟨hcap, hlen⟩
          · rw [h3 written err hp hstale]; exact ⟨hcap, hlen⟩
  | mqtt payload now =>
    simp only [step, handleMessage_eq] at h
    split at h
    · cases h; exact ⟨hcap, hlen⟩
    · split at h
      · cases h; exact ⟨hcap, hlen⟩
      · split at h
        · rename_i q hq
          simp only [Chan.send] at hq
          split at hq
          · rename_i hroom
            cases hq
            cases h
            exact ⟨hcap, by simp only [List.length_append, List.length_singleton]; omega⟩
          · cases hq
        · cases h
  | cancel =>
    simp only [step] at h
    cases h; exact ⟨hcap, hlen⟩
  | senderDone =>
    simp only [step] at h
    split at h
    · cases h; exact ⟨hcap, hlen⟩
    · cases h
  | senderRecv =>
    simp only [step, Chan.recv] at h
    split at h
    · split at h
      · rename_i msg q hrecv
        split at hrecv
        · cases hrecv
        · rename_i hbuf
          cases hrecv
          cases h
          refine ⟨hcap, ?_⟩
          rw [hbuf] at hlen
          simp only [List.length_cons] at hlen
          simp only
          omega
      · cases h
    · cases h
  | notifierDone =>
    simp only [step] at h
    split at h
    · cases h; exact ⟨hcap, hlen⟩
    · cases h
  | notifierRecv =>
    simp only [step] at h
    split at h
    · split at h
      · cases h; exact ⟨hcap, hlen⟩
      · cases h
    · cases h

/-- C10 (amended): in every execution, the number of jobs waiting in
`messageQueue` never exceeds the capacity fixed at construction (100 entries);
the jobs held in the buffer of `tcpSender` are not counted. -/
theorem messageQueue_bounded (g : Given) (config : Config) (es : List Event) (s : State)
    (hrun : run g config NewPrinterService es = some s) :
    s.messageQueue.cap = 100 ∧ s.messageQueue.buf.length ≤ 100 := by
  have hinv : QueueBounded s :=
    run_invariant g config QueueBounded
      (fun s e s1 hi hs => queueBounded_step g config s e s1 hi hs)
      NewPrinterService es s ⟨rfl, by decide⟩ hrun
  exact ⟨hinv.1, by have := hinv.2; rw [hinv.1] at this; exact this⟩

/-- C10 (amended) at the execution `oneReceived` followed by one more message. -/
theorem messageQueue_bounded_witness :
    run sampleGiven tcpConfig NewPrinterService (oneReceived ++ [.mqtt (ascii "B") 1])
        = some afterOneQueued
    ∧ (afterOneQueued.messageQueue.cap = 100 ∧ afterOneQueued.messageQueue.buf.length ≤ 100) :=
  ⟨by decide,
   messageQueue_bounded sampleGiven tcpConfig (oneReceived ++ [.mqtt (ascii "B") 1])
     afterOneQueued (by decide)⟩

/-! ## C11 -/

/-- What a step adds to the history; when it adds no delivery attempt, the backoff
is unchanged. -/
theorem step_quiet_backoff (g : Given) (config : Config) (s s1 : State) (e : Event)
    (h : step g config s e = some s1) :
    ∃ new, s1.trace = s.trace ++ new
      ∧ ((∀ m written err, Obs.attempt m written err ∉ new) → s1.backoff = s.backoff) := by
  by_cases hd : ∃ env now, e = .senderDefault env now
  · obtain ⟨env, now, rfl⟩ := hd
    rcases step_default_trace g config s s1 env now h with
      ⟨_, _, hbo, ht⟩ | ⟨job, rest, written, err, _, _, _, ht⟩
        | ⟨job, rest, written, err, success, _, _, _, ht⟩
    · exact ⟨_, ht, fun _ => hbo⟩
    · exact ⟨_, ht, fun hq => absurd (by simp) (hq job written (some err))⟩
    · exact ⟨_, ht, fun hq => absurd (by simp) (hq job written err)⟩
  · have hne : ∀ env now, e ≠ .senderDefault env now := fun env now he => hd ⟨env, now, he⟩
    obtain ⟨hbo, hcases⟩ := step_other_trace g config s s1 e hne h
    rcases hcases with ⟨_, ht | ⟨m, ht⟩ | ⟨cb, ht⟩⟩ | ⟨m, _, ht⟩
    · exact ⟨[], by simpa using ht, fun _ => hbo⟩
    · exact ⟨_, ht, fun _ => hbo⟩
    · exact ⟨_, ht, fun _ => hbo⟩
    · exact ⟨_, ht, fun _ => hbo⟩

/-- An execution extends the history; when it adds no delivery attempt, the
backoff is unchanged. -/
theorem run_quiet_backoff (g : Given) (config : Config) (es : List Event) :
    ∀ s s2 : State, run g config s es = some s2 →
      ∃ new, s2.trace = s.trace ++ new
        ∧ ((∀ m written err, Obs.attempt m written err ∉ new) → s2.backoff = s.backoff) := by
  induction es with
  | nil =>
    intro s s2 hrun
    simp only [run, Option.some.injEq] at hrun
    subst hrun
    exact ⟨[], by simp, fun _ => rfl⟩
  | cons e es ih =>
    intro s s2 hrun
    simp only [run] at hrun
    cases h1 : step g config s e with
    | none => rw [h1] at hrun; cases hrun
    | some s1 =>
      rw [h1] at hrun
      obtain ⟨new1, ht1, hb1⟩ := step_quiet_backoff g config s s1 e h1
      obtain ⟨new2, ht2, hb2⟩ := ih s1 s2 hrun
      refine ⟨new1 ++ new2, by rw [ht2, ht1, List.append_assoc], ?_⟩
      intro hq
      have hq1 : ∀ m written err, Obs.attempt m written err ∉ new1 :=
        fun m w er hm => hq m w er (List.mem_append_left _ hm)
      have hq2 : ∀ m written err, Obs.attempt m written err ∉ new2 :=
        fun m w er hm => hq m w er (List.mem_append_right _ hm)
      rw [hb2 hq2, hb1 hq1]

/-- C11: in `tcpSender`, dropping the head job as stale leaves the backoff
unchanged; when no delivery attempt is made before the next failed attempt on
a job that is not stale, that job's first retry sleep lasts the backoff carried
over from the dropped job.  In the execution `beforeStale` followed by a refusal
at 61s (the first job is dropped as stale) and a refusal at 62s (first attempt
on the second job), the first retry sleep of the second job lasts 1.5s, the
backoff left by the dropped job, which is strictly more than 1s and at most 30s. -/
theorem tcpSender_stale_drop_keeps_backoff (g : Given) (config : Config)
    (s s1 s2 s3 : State) (job next : PrintMessage) (rest rest2 : List PrintMessage)
    (env env2 : SinkEnv) (now now2 : Int) (es : List Event)
    (hbuf : s.buffer = job :: rest)
    (herr : (processMessage g config env job).2 ≠ none)
    (hstale : now - job.Timestamp > (Minute : Int))
    (hstep : step g config s (.senderDefault env now) = some s1)
    (hrun : run g config s1 es = some s2)
    (hquiet : ∀ m written err, Obs.attempt m written err ∉ s2.trace.drop s1.trace.length)
    (hbuf2 : s2.buffer = next :: rest2)
    (herr2 : (processMessage g config env2 next).2 ≠ none)
    (hfresh2 : now2 - next.Timestamp ≤ (Minute : Int))
    (hstep2 : step g config s2 (.senderDefault env2 now2) = some s3) :
    (s1.backoff = s.backoff ∧ removedOf s1.trace = removedOf s.trace ++ [job])
    ∧ (∃ written err, s3.trace
        = s2.trace ++ [.attempt next written (some err), .retrySleep s.backoff])
    ∧ (run sampleGiven tcpConfig NewPrinterService
          (beforeStale ++ [.senderDefault downEnv 61000000000,
            .senderDefault downEnv 62000000000]) = some afterNextRetry
      ∧ [Obs.removed oldJob, Obs.attempt newJob [] (some .tcpConnectionFailed),
          Obs.retrySleep 1500000000] <:+ afterNextRetry.trace
      ∧ atStale.backoff = 1500000000
      ∧ Second < 1500000000 ∧ 1500000000 ≤ 30 * Second) := by
  obtain ⟨_, h2, _⟩ := step_attempt g config s s1 env now job rest hbuf hstep
  have hs1 : s1.backoff = s.backoff ∧ removedOf s1.trace = removedOf s.trace ++ [job] := by
    cases hp : processMessage g config env job with
    | mk written err =>
      cases err with
      | none => rw [hp] at herr; exact absurd rfl herr
      | some err =>
        obtain ⟨q, _, hs1⟩ := h2 written err hp hstale
        rw [hs1]
        exact ⟨rfl, by simp [removedOf]⟩
  obtain ⟨new, hnew, hbo⟩ := run_quiet_backoff g config es s1 s2 hrun
  have hdrop : s2.trace.drop s1.trace.length = new := by
    rw [hnew, List.drop_left]
  rw [hdrop] at hquiet
  have hbo2 : s2.backoff = s.backoff := by rw [hbo hquiet, hs1.1]
  obtain ⟨_, _, h3⟩ := step_attempt g config s2 s3 env2 now2 next rest2 hbuf2 hstep2
  refine ⟨hs1, ?_, by decide⟩
  cases hp : processMessage g config env2 next with
  | mk written err =>
    cases err with
    | none => rw [hp] at herr2; exact absurd rfl herr2
    | some err =>
      have hs3 := h3 written err hp (by omega)
      rw [hs3]
      exact ⟨written, err, by rw [hbo2]⟩

/-- C11 at the execution `beforeStale`, a refusal at 61s and a refusal at 62s. -/
theorem tcpSender_stale_drop_keeps_backoff_witness :
    atStale.buffer = oldJob :: [newJob]
    ∧ (processMessage sampleGiven tcpConfig downEnv oldJob).2 ≠ none
    ∧ (61000000000 : Int) - oldJob.Timestamp > (Minute : Int)
    ∧ step sampleGiven tcpConfig atStale (.senderDefault downEnv 61000000000) = some afterDrop
    ∧ run sampleGiven tcpConfig afterDrop [] = some afterDrop
    ∧ (∀ m written err,
        Obs.attempt m written err ∉ afterDrop.trace.drop afterDrop.trace.length)
    ∧ afterDrop.buffer = newJob :: []
    ∧ (processMessage sampleGiven tcpConfig downEnv newJob).2 ≠ none
    ∧ (62000000000 : Int) - newJob.Timestamp ≤ (Minute : Int)
    ∧ step sampleGiven tcpConfig afterDrop (.senderDefault downEnv 62000000000)
        = some afterNextRetry
    ∧ ((afterDrop.backoff = atStale.backoff
        ∧ removedOf afterDrop.trace = removedOf atStale.trace ++ [oldJob])
      ∧ (∃ written err, afterNextRetry.trace
          = afterDrop.trace ++ [.attempt newJob written (some err),
              .retrySleep atStale.backoff])
      ∧ (run sampleGiven tcpConfig NewPrinterService
            (beforeStale ++ [.senderDefault downEnv 61000000000,
              .senderDefault downEnv 62000000000]) = some afterNextRetry
        ∧ [Obs.removed oldJob, Obs.attempt newJob [] (some .tcpConnectionFailed),
            Obs.retrySleep 1500000000] <:+ afterNextRetry.trace
        ∧ atStale.backoff = 1500000000
        ∧ Second < 1500000000 ∧ 1500000000 ≤ 30 * Second)) :=
  ⟨by decide, by decide, by decide, by decide, rfl,
   by intro m written err hm; simp at hm,
   by decide, by decide, by decide, by decide,
   tcpSender_stale_drop_keeps_backoff sampleGiven tcpConfig atStale afterDrop afterDrop
     afterNextRetry oldJob newJob [newJob] [] downEnv downEnv 61000000000 62000000000 []
     (by decide) (by decide) (by decide) (by decide) rfl
     (by intro m written err hm; simp at hm)
     (by decide) (by decide) (by decide) (by decide)⟩

end Printer
